import Mathlib

/-!
Verification development for `trackHub_generator.py` (UCSC_trackHub_generator).

The script maps a local directory tree to a UCSC trackDb configuration plus a
directory of symlinks.  Below, each Python function of the source is embedded
as an executable Lean definition:

* `get_bigwig_color`, `get_tracks_config`, `get_container_config`,
  `update_config_from_file` — the config builder;
* `buildNode` / `buildList` — `get_directory_structure` together with the
  `os.walk` traversal (top-down, children in listing order), with `sys.exit`
  modelled as `Except.error`;
* `write_hub` (via `writeOne` / `writeChildren` / `writeTracks`) — the hub
  writer, with the output directory modelled as an association list of
  filesystem entries and `os.symlink` / `os.remove` as list operations.

Python dicts (3.7+: insertion ordered) are modelled as ordered association
lists with `AttrMap.setEntry` giving dict-assignment semantics (replace in
place, else append).  Python's regexes here are only literal substrings,
one alternation `a|b` and gaps `a.*b`, all case-insensitive; the `Pat` type
covers exactly those.  `os.path.realpath(os.path.join root p)` is modelled as
the syntactic join `root ++ "/" ++ p`: for an unchanged input tree it is a
fixed deterministic function, which is all the claims need.  `os.sep` is "/".
-/

deriving instance DecidableEq for Except

/-! ## Characters, case-insensitive matching, patterns -/

/-- The character data of a string, lowercased (models `re.IGNORECASE`). -/
def lowerData (s : String) : List Char := s.data.map Char.toLower

/-- Case-insensitive `str.endswith` (used for the anchored regexes
`.*\.multiwig$` etc. and `.*\.(bw|bigwig)$` of the source). -/
def endsWithCI (s suffix : String) : Bool := (lowerData suffix).isSuffixOf (lowerData s)

/-- The suffix of `hay` just after the first occurrence of `needle`;
`none` if `needle` does not occur. -/
def afterFirst (needle : List Char) : List Char → Option (List Char)
  | [] => if needle.isEmpty then some [] else none
  | c :: rest =>
    if needle.isPrefixOf (c :: rest) then some ((c :: rest).drop needle.length)
    else afterFirst needle rest

/-- Substring occurrence on character lists (`needle in hay`). -/
def occursIn (needle hay : List Char) : Bool := (afterFirst needle hay).isSome

/-- The regex shapes that actually occur in the source's pattern tables:
a literal, a two-way alternation of literals (`methyl|WGBS`) and a gap
(`male.*H3K9me3`, `RNA.*fwd`, ...). -/
inductive Pat where
  | lit (w : String)
  | alt2 (a b : String)
  | gap (a b : String)
deriving DecidableEq, Repr

/-- `re.search(pattern, s, re.IGNORECASE)` for the pattern shapes above.
A gap `a.*b` matches iff some occurrence of `a` is followed (disjointly)
by an occurrence of `b`; equivalently `b` occurs after the first
occurrence of `a`. -/
def Pat.search (p : Pat) (s : String) : Bool :=
  match p with
  | .lit w => occursIn (lowerData w) (lowerData s)
  | .alt2 a b => occursIn (lowerData a) (lowerData s) || occursIn (lowerData b) (lowerData s)
  | .gap a b =>
    match afterFirst (lowerData a) (lowerData s) with
    | some rest => occursIn (lowerData b) rest
    | none => false

/-! ## Attribute values and ordered attribute maps -/

/-- A Python attribute value as used by the script: `None`, a string, or an
int (`priority: 1`). -/
inductive Val where
  | none
  | str (s : String)
  | int (n : Int)
deriving DecidableEq, Repr

/-- How `"{} {}".format(k, v)` renders the value in the written hub file. -/
def Val.out : Val → String
  | .none => "None"
  | .str s => s
  | .int n => toString n

/-- An insertion-ordered Python dict of track attributes. -/
abbrev AttrMap := List (String × Val)

/-- Python dict assignment `m[k] = v`: replace in place if the key exists,
else append at the end. -/
def AttrMap.setEntry (m : AttrMap) (k : String) (v : Val) : AttrMap :=
  if m.any (fun p => p.1 = k) then m.map (fun p => if p.1 = k then (k, v) else p)
  else m ++ [(k, v)]

/-- Python `m.update(other)`: assign every pair of `other` in order. -/
def AttrMap.update (m other : AttrMap) : AttrMap :=
  other.foldl (fun acc p => AttrMap.setEntry acc p.1 p.2) m

/-- Python `m.pop(k, None)`: drop the key. -/
def AttrMap.pop (m : AttrMap) (k : String) : AttrMap :=
  m.filter (fun p => p.1 ≠ k)

/-- Python `m[k]` as an option (first entry with the key). -/
def AttrMap.getKey (m : AttrMap) (k : String) : Option Val :=
  (m.find? (fun p => p.1 = k)).map Prod.snd

/-- The per-directory config: an insertion-ordered dict from entity name
(container name or file name) to its attribute dict. -/
abbrev ConfigMap := List (String × AttrMap)

/-- Lookup of an entity in a config. -/
def ConfigMap.lookupCfg (cfg : ConfigMap) (name : String) : Option AttrMap :=
  (cfg.find? (fun p => p.1 = name)).map Prod.snd

/-- Dict assignment at the config level. -/
def ConfigMap.setCfg (cfg : ConfigMap) (k : String) (m : AttrMap) : ConfigMap :=
  if cfg.any (fun p => p.1 = k) then cfg.map (fun p => if p.1 = k then (k, m) else p)
  else cfg ++ [(k, m)]

/-- Python `config.update(tracks)` at the config level. -/
def ConfigMap.updateWith (cfg more : ConfigMap) : ConfigMap :=
  more.foldl (fun acc p => ConfigMap.setCfg acc p.1 p.2) cfg

/-- Python `config[entity][k] = v` (mutation of one entity's dict). -/
def ConfigMap.setAttr (cfg : ConfigMap) (entity k : String) (v : Val) : ConfigMap :=
  cfg.map (fun p => if p.1 = entity then (p.1, AttrMap.setEntry p.2 k v) else p)

/-! ## The source's rule tables (module-level literals of the script) -/

/-- `bigwig_colors`: ordered regex→color table; keys are matched against the
filename and the parent container name. -/
def bigwig_colors : List (Pat × String) := [
  (.lit "input",    "150,150,150"),
  (.lit "H3K4me1",  "65,171,93"),
  (.lit "H3K4me2",  "161,217,155"),
  (.lit "H3K27ac",  "252,78,42"),
  (.lit "H3K4me3",  "203,24,29"),
  (.lit "H3K36me3", "254,196,79"),
  (.lit "H3K27me3", "140,107,177"),
  (.lit "H3K9me3",  "29,145,192"),
  (.lit "H3K9ac",   "164,0,0"),
  (.lit "CTCF",     "106,81,163"),
  (.lit "WGBS",     "0,102,255"),
  (.lit "methyl",   "0,102,255"),
  (.gap "RNA" "fwd",  "0,102,0"),
  (.gap "RNA" "rev",  "153,51,0"),
  (.gap "RNA" "RPKM", "71,107,107"),
  (.lit "DNase",    "0,204,102"),
  (.lit "Hp1a",     "0,128,255"),
  (.lit "H1",       "255,102,255"),
  (.lit "H3K9me2",  "51,51,255")]

/-- `multiwig_default`. -/
def multiwig_default : AttrMap := [
  ("track", .none),
  ("type", .str "bigWig"),
  ("container", .str "multiWig"),
  ("parent", .none),
  ("shortLabel", .none),
  ("longLabel", .none),
  ("aggregate", .str "transparentOverlay"),
  ("showSubtrackColorOnUi", .str "on"),
  ("priority", .int 1),
  ("html", .str "examplePage")]

/-- `bigwig_default`. -/
def bigwig_default : AttrMap := [
  ("track", .none),
  ("type", .str "bigWig"),
  ("parent", .none),
  ("bigDataUrl", .none),
  ("shortLabel", .none),
  ("longLabel", .none),
  ("color", .str "255,0,0")]

/-- `bigwig_combined`: view attributes shared by a multiwig container or an
individual (non-multiwig) bigwig track. -/
def bigwig_combined : AttrMap := [
  ("visibility", .str "hide"),
  ("maxHeightPixels", .str "500:20:8"),
  ("viewLimits", .str "0:20"),
  ("alwaysZero", .str "on"),
  ("autoScale", .str "off"),
  ("windowingFunction", .str "mean+whiskers"),
  ("priority", .int 1)]

/-- The literal `"255,0,0"` stored in `bigbed_default["color"]` and passed to
`get_bigwig_color` as the bigbed fallback. -/
def bigbedDefaultColor : String := "255,0,0"

/-- `bigbed_default`. -/
def bigbed_default : AttrMap := [
  ("track", .none),
  ("parent", .none),
  ("bigDataUrl", .none),
  ("shortLabel", .none),
  ("longLabel", .none),
  ("type", .str "bigBed 3 +"),
  ("color", .str bigbedDefaultColor),
  ("visibility", .str "squish")]

/-- `bigwig_specific`: ordered regex→override table for display tuning; the
loop over it breaks at the first match. -/
def bigwig_specific : List (Pat × AttrMap) := [
  (.alt2 "methyl" "WGBS",
    [("viewLimits", .str "0:100"), ("maxHeightPixels", .str "500:30:8")]),
  (.gap "male" "H3K9me3", [("viewLimits", .str "0:15")]),
  (.lit "H3K9me3", [("viewLimits", .str "0:8")]),
  (.lit "H3K27me3", [("viewLimits", .str "0:14")]),
  (.lit "snRNA",
    [("viewLimits", .str "0:15"), ("maxHeightPixels", .str "500:30:8"),
     ("transformFunc", .str "LOG")]),
  (.lit "RNA", [("viewLimits", .str "0:30")])]

/-- `composite_default`. -/
def composite_default : AttrMap := [
  ("track", .none),
  ("parent", .none),
  ("type", .none),
  ("compositeTrack", .str "on"),
  ("shortLabel", .none),
  ("longLabel", .none),
  ("visibility", .str "hide"),
  ("priority", .int 1),
  ("centerLabelsDense", .str "on"),
  ("html", .str "examplePage")]

/-- `super_default`. -/
def super_default : AttrMap := [
  ("track", .none),
  ("superTrack", .str "on show"),
  ("parent", .none),
  ("shortLabel", .none),
  ("longLabel", .none),
  ("priority", .int 1),
  ("html", .str "examplePage")]

/-! ## Classifier -/

/-- `re.match(".*\.multiwig$", name, re.IGNORECASE)`. -/
def isMultiwigName (name : String) : Bool := endsWithCI name ".multiwig"

/-- `re.match(".*\.composite$", name, re.IGNORECASE)`. -/
def isCompositeName (name : String) : Bool := endsWithCI name ".composite"

/-- `re.match(".*\.super$", name, re.IGNORECASE)`. -/
def isSuperName (name : String) : Bool := endsWithCI name ".super"

/-- A directory name carrying one of the three recognized container suffixes. -/
def isContainerName (name : String) : Bool :=
  isMultiwigName name || isCompositeName name || isSuperName name

/-- `re.match(".*\.(bw|bigwig)$", f, re.IGNORECASE)`. -/
def isBigwigFile (f : String) : Bool := endsWithCI f ".bw" || endsWithCI f ".bigwig"

/-- `re.match(".*\.(bb|bigbed)$", f, re.IGNORECASE)`. -/
def isBigbedFile (f : String) : Bool := endsWithCI f ".bb" || endsWithCI f ".bigbed"

/-- A file the script turns into a track at all. -/
def classifiedFile (f : String) : Bool := isBigwigFile f || isBigbedFile f

/-- The `generatorType` value computed by the suffix dispatch of
`get_container_config` (`None` for the unmatched / toplevel case). -/
def genTypeOf (name : String) : Option String :=
  if isMultiwigName name then some "multiwig"
  else if isCompositeName name then some "composite"
  else if isSuperName name then some "super"
  else none

/-! ## Color resolution and display-tuning overrides -/

/-- `get_bigwig_color(filename, parent, default)`: scan `bigwig_colors` in
declaration order; a pattern fires if it matches the filename **or** the
parent name; first firing pattern wins, else the default. -/
def get_bigwig_color (filename parent dflt : String) : String :=
  match bigwig_colors.find? (fun pc => Pat.search pc.1 filename || Pat.search pc.1 parent) with
  | some pc => pc.2
  | none => dflt

/-- The `for pat in bigwig_specific: ... break` loop: layer the overrides of
the first pattern matching `subject`, if any. -/
def applyFirstSpecific (m : AttrMap) (subject : String) : AttrMap :=
  match bigwig_specific.find? (fun ps => Pat.search ps.1 subject) with
  | some ps => AttrMap.update m ps.2
  | none => m

/-! ## Per-track configuration (`get_tracks_config`) -/

/-- `os.path.join(*parents[1:] + [f])`: the data path relative to the input
root (the root directory name itself is dropped). -/
def relPathOf (parents : List String) (f : String) : String :=
  String.intercalate "/" (parents.drop 1 ++ [f])

/-- The body of the bigwig branch of `get_tracks_config`'s loop for one
file: seed `bigwig_default`, layer `bigwig_combined` unless the container is
multiwig, set parent (popped for toplevel files), identifier, data path,
labels and color, then (unless multiwig) the first-matching
`bigwig_specific` override. -/
def bigwig_track_config (f : String) (ty : Option String) (parents : List String)
    (c : Nat) : AttrMap :=
  let t := bigwig_default
  let t := if ty ≠ some "multiwig" then AttrMap.update t bigwig_combined else t
  let t := if 2 ≤ parents.length then AttrMap.setEntry t "parent" (.str (parents.getLastD ""))
           else AttrMap.pop t "parent"
  let t := AttrMap.setEntry t "track" (.str ("track_" ++ toString c))
  let t := AttrMap.setEntry t "bigDataUrl" (.str (relPathOf parents f))
  let t := AttrMap.setEntry t "shortLabel" (.str f)
  let t := AttrMap.setEntry t "longLabel" (.str f)
  let t := AttrMap.setEntry t "color" (.str (get_bigwig_color f (parents.getLastD "") "255,0,0"))
  if ty ≠ some "multiwig" then applyFirstSpecific t f else t

/-- The body of the bigbed branch of `get_tracks_config`'s loop for one
file: seed `bigbed_default`, set parent (popped for toplevel files),
identifier, data path, labels and color; no combined-view layer and no
display-tuning layer. -/
def bigbed_track_config (f : String) (parents : List String) (c : Nat) : AttrMap :=
  let t := bigbed_default
  let t := if 2 ≤ parents.length then AttrMap.setEntry t "parent" (.str (parents.getLastD ""))
           else AttrMap.pop t "parent"
  let t := AttrMap.setEntry t "track" (.str ("track_" ++ toString c))
  let t := AttrMap.setEntry t "bigDataUrl" (.str (relPathOf parents f))
  let t := AttrMap.setEntry t "shortLabel" (.str f)
  let t := AttrMap.setEntry t "longLabel" (.str f)
  AttrMap.setEntry t "color" (.str (get_bigwig_color f (parents.getLastD "") bigbedDefaultColor))

/-- `get_tracks_config(files, type, parents)` with the global `trackCounter`
made explicit: returns the ordered per-file config dict and the new counter.
`files` comes from one `os.walk` entry, so its names are distinct; the
insertion `tracks_config[track_file] = ...` is therefore a plain append. -/
def get_tracks_config (files : List String) (ty : Option String)
    (parents : List String) (c : Nat) : List (String × AttrMap) × Nat :=
  match files with
  | [] => ([], c)
  | f :: fs =>
    if isBigwigFile f then
      let r := get_tracks_config fs ty parents (c + 1)
      ((f, bigwig_track_config f ty parents c) :: r.1, r.2)
    else if isBigbedFile f then
      let r := get_tracks_config fs ty parents (c + 1)
      ((f, bigbed_track_config f parents c) :: r.1, r.2)
    else get_tracks_config fs ty parents c

/-! ## Container configuration (`get_container_config`) -/

/-- `sys.exit` message for an unrecognized subdirectory. -/
def structuralMsg : String := "Every subdir needs to be a multiwig, composite or super container!"

/-- `sys.exit` message for mixed track types. -/
def onlyOneTypeMsg : String := "Only one tracktype allowed in composite or multiwig containers!"

/-- `sys.exit` message for a non-bigWig track in a multiwig container. -/
def onlyBigwigMsg : String := "Only bigWig tracks are allowed in multiwig containers!"

/-- The distinct elements of a list, keeping first occurrences.  Models the
Python `set(...)` of line 217; the set's iteration order is arbitrary, but
only its size, and its sole element when the size is 1, are ever observed,
so a deterministic first-occurrence order is an equivalent model. -/
def distinctVals (l : List Val) : List Val :=
  l.foldl (fun acc v => if acc.contains v then acc else acc ++ [v]) []

/-- The `tmp` set of `get_container_config`: the distinct `type` attribute
values across the per-file track configs. -/
def trackTypesOf (files : List String) (ty : Option String)
    (parents : List String) (c : Nat) : List Val :=
  distinctVals ((get_tracks_config files ty parents c).1.filterMap
    (fun t => AttrMap.getKey t.2 "type"))

/-- `update_config_from_file(path, config)`: if the directory has a yaml
override document, then for every entity already in the config whose name
appears in the document, merge the document's pairs over the built dict. -/
def update_config_from_file (config : ConfigMap) (doc : Option ConfigMap) : ConfigMap :=
  match doc with
  | Option.none => config
  | some d =>
    config.map (fun p =>
      match ConfigMap.lookupCfg d p.1 with
      | some ov => (p.1, AttrMap.update p.2 ov)
      | Option.none => p)

/-- The kind-specific default template seeded into the container's dict
(for multiwig the combined view attributes are layered on top; the
toplevel starts from the empty dict). -/
def baseContainerConfig (name : String) : AttrMap :=
  if isMultiwigName name then AttrMap.update multiwig_default bigwig_combined
  else if isCompositeName name then composite_default
  else if isSuperName name then super_default
  else []

/-- `get_container_config(path, parents, files)`, with the directory's first
`*.yaml` override document (if any) passed in as `ovDoc` and the global
counter made explicit; the result runs through `update_config_from_file`
exactly as in the source.  The side-effecting dump of
`container_config.used` is omitted (it is never read back).  `sys.exit` is
`Except.error`. -/
def get_container_config (parents files : List String) (ovDoc : Option ConfigMap)
    (c : Nat) : Except String (ConfigMap × Nat) :=
  let name := parents.getLastD ""
  let generatorType := genTypeOf name
  if generatorType = Option.none ∧ 1 < parents.length then .error structuralMsg
  else
    let cc := baseContainerConfig name
    let cc := AttrMap.setEntry cc "track" (.str name)
    let cc := AttrMap.setEntry cc "shortLabel" (.str name)
    let cc := AttrMap.setEntry cc "longLabel" (.str name)
    -- container_config["parent"] = parents[len(parents)-2]; for a singleton
    -- list Python's parents[-1] and the truncated index 1-2 ↦ 0 agree
    let cc := AttrMap.setEntry cc "parent" (.str (parents.getD (parents.length - 2) ""))
    let cc := if generatorType = some "multiwig" then applyFirstSpecific cc name else cc
    -- toplevel must not have a parent entry: len(parents)-2 <= 0
    let cc := if parents.length ≤ 2 then AttrMap.pop cc "parent" else cc
    let tr := get_tracks_config files generatorType parents c
    let cfg := ConfigMap.updateWith (ConfigMap.setCfg [] name cc) tr.1
    if generatorType = some "composite" ∨ generatorType = some "multiwig" then
      let tmp := distinctVals (tr.1.filterMap (fun t => AttrMap.getKey t.2 "type"))
      if 1 < tmp.length then .error onlyOneTypeMsg
      else
        let multi_track_type := tmp.headD (Val.str "bigWig")
        if generatorType = some "multiwig" ∧ multi_track_type ≠ Val.str "bigWig" then
          .error onlyBigwigMsg
        else
          .ok (update_config_from_file (ConfigMap.setAttr cfg name "type" multi_track_type) ovDoc, tr.2)
    else .ok (update_config_from_file cfg ovDoc, tr.2)

/-! ## The directory walk (`get_directory_structure` + `os.walk`) -/

/-- An input directory tree: name, subdirectories in listing order, files in
listing order. -/
inductive Dir where
  | mk (name : String) (subs : List Dir) (files : List String)
deriving Repr

/-- Directory name accessor. -/
def Dir.dirName : Dir → String
  | .mk n _ _ => n

/-- The node of the built hub: directory name, child containers in listing
order, and the per-directory config (which holds the container's own entry
keyed by its own name, plus one entry per classified file). -/
inductive HubNode where
  | mk (name : String) (children : List HubNode) (tracks : ConfigMap)
deriving Repr

/-- Hub node accessors. -/
def HubNode.hname : HubNode → String
  | .mk n _ _ => n

def HubNode.children : HubNode → List HubNode
  | .mk _ cs _ => cs

def HubNode.tracks : HubNode → ConfigMap
  | .mk _ _ t => t

mutual
/-- `get_directory_structure` restricted to one subtree: `os.walk` visits the
directory itself first (assigning its files their counter values), then each
subdirectory in listing order, depth first.  `ov` supplies the per-directory
yaml override document, keyed by the `parents` path. -/
def buildNode (ps : List String) (d : Dir) (ov : List String → Option ConfigMap)
    (c : Nat) : Except String (HubNode × Nat) :=
  match d with
  | .mk name subs files =>
    match get_container_config (ps ++ [name]) files (ov (ps ++ [name])) c with
    | .error e => .error e
    | .ok (cfg, c₁) =>
      match buildList (ps ++ [name]) subs ov c₁ with
      | .error e => .error e
      | .ok (children, c₂) => .ok (HubNode.mk name children cfg, c₂)

/-- The walk over a list of sibling directories, threading the counter. -/
def buildList (ps : List String) (ds : List Dir) (ov : List String → Option ConfigMap)
    (c : Nat) : Except String (List HubNode × Nat) :=
  match ds with
  | [] => .ok ([], c)
  | d :: rest =>
    match buildNode ps d ov c with
    | .error e => .error e
    | .ok (h, c₁) =>
      match buildList ps rest ov c₁ with
      | .error e => .error e
      | .ok (hs, c₂) => .ok (h :: hs, c₂)
end

/-! ## The hub writer (`write_hub`) and the output directory -/

/-- An entry of the output directory. -/
inductive FsEntry where
  | file
  | dir
  | symlink (target : String)
deriving DecidableEq, Repr

/-- The output directory: an ordered listing of named entries. -/
abbrev Fs := List (String × FsEntry)

/-- Lookup of a name in the output directory. -/
def lookupFs (fs : Fs) (n : String) : Option FsEntry :=
  (fs.find? (fun p => p.1 = n)).map Prod.snd

/-- `os.remove`: drop the entry with the given name. -/
def removeFs (fs : Fs) (n : String) : Fs := fs.filter (fun p => p.1 ≠ n)

/-- Message for Python's `FileExistsError` raised by `os.symlink` when the
path already exists. -/
def fileExistsMsg : String := "FileExistsError"

/-- Message for the `KeyError` raised by `hub[container]['tracks'][track]['bigDataUrl']`. -/
def keyErrorMsg : String := "KeyError: bigDataUrl"

/-- Message for a missing self entry `hub[container]['tracks'][container]`. -/
def selfKeyErrorMsg : String := "KeyError: container self entry"

/-- Message for `os.path.join(root, v)` on a non-string value. -/
def typeErrorMsg : String := "TypeError: bigDataUrl is not a string"

/-- Lines 353-357 of the source: remove a pre-existing **symlink** of the
track's name, then `os.symlink(target, outdir/name)`; a surviving entry of
any kind makes `os.symlink` raise. -/
def linkTrack (fs : Fs) (name target : String) : Except String Fs :=
  let fs1 := match lookupFs fs name with
    | some (.symlink _) => removeFs fs name
    | _ => fs
  match lookupFs fs1 name with
  | some _ => .error fileExistsMsg
  | Option.none => .ok (fs1 ++ [(name, .symlink target)])

/-- `"{m: <{de}}".format(m='', de=str(k))`: `k` spaces. -/
def indentStr (k : Nat) : String := String.mk (List.replicate k ' ')

/-- The suffix after the last `'/'` (`v.split(os.sep)[-1]`). -/
def afterLastSlash : List Char → List Char
  | [] => []
  | ch :: cs =>
    if cs.contains '/' then afterLastSlash cs
    else if ch = '/' then cs
    else ch :: cs

/-- Basename of a path string. -/
def basenameOf (s : String) : String := String.mk (afterLastSlash s.data)

/-- `os.path.realpath(os.path.join(in_root, url))`, modelled as the
syntactic join (a fixed deterministic function of an unchanged tree). -/
def joinPath (root url : String) : String := root ++ "/" ++ url

/-- One `key value` block for an entity: each attribute on its own indented
line; in track blocks (`substUrl = true`) the `bigDataUrl` value is replaced
by its basename. -/
def attrLines (m : AttrMap) (indent : Nat) (substUrl : Bool) : String :=
  m.foldl (fun acc kv =>
    let v := if substUrl ∧ kv.1 = "bigDataUrl" then basenameOf kv.2.out else kv.2.out
    acc ++ indentStr indent ++ kv.1 ++ " " ++ v ++ "\n") ""

/-- The filesystem effect of one track: a symlink creation, or the exception
the source would raise for a malformed `bigDataUrl`. -/
inductive WStep where
  | link (name target : String)
  | fail (msg : String)
deriving DecidableEq, Repr

/-- The effect of the track loop body for entry `(k, m)`. -/
def trackStep (root k : String) (m : AttrMap) : WStep :=
  match AttrMap.getKey m "bigDataUrl" with
  | some (.str u) => .link k (joinPath root u)
  | some _ => .fail typeErrorMsg
  | Option.none => .fail keyErrorMsg

/-- Run one filesystem effect. -/
def runStep (fs : Fs) : WStep → Except String Fs
  | .link n t => linkTrack fs n t
  | .fail m => .error m

/-- Run a sequence of filesystem effects, stopping at the first failure. -/
def runSteps (fs : Fs) : List WStep → Except String Fs
  | [] => .ok fs
  | s :: ss =>
    match runStep fs s with
    | .error e => .error e
    | .ok fs₁ => runSteps fs₁ ss

/-- Lines 344-358: emit every non-self track of a container (attribute block,
then symlink, then a blank line), returning the text this loop writes and
the updated output directory. -/
def writeTracks (root self : String) (entries : List (String × AttrMap)) (depth : Nat)
    (fs : Fs) : Except String (String × Fs) :=
  match entries with
  | [] => .ok ("", fs)
  | (k, m) :: ts =>
    if k = self then writeTracks root self ts depth fs
    else
      let txt := attrLines m (depth * 5) true
      match runStep fs (trackStep root k m) with
      | .error e => .error e
      | .ok fs₁ =>
        match writeTracks root self ts depth fs₁ with
        | .error e => .error e
        | .ok r => .ok (txt ++ "\n" ++ r.1, r.2)

mutual
/-- The body of `write_hub`'s `for container in hub['containers']` loop for
one container: its own attribute block (only at depth > 0, indented by
`(depth-1)*5`), the recursive call at `depth+1`, then its tracks. -/
def writeOne (root : String) (cn : HubNode) (depth : Nat) (fs : Fs) :
    Except String (String × Fs) :=
  match cn with
  | .mk name children tracks =>
    let selfBlock : Except String String :=
      if 0 < depth then
        match ConfigMap.lookupCfg tracks name with
        | some m => .ok (attrLines m ((depth - 1) * 5) false ++ "\n")
        | Option.none => .error selfKeyErrorMsg
      else .ok ""
    match selfBlock with
    | .error e => .error e
    | .ok t0 =>
      match writeChildren root children (depth + 1) fs with
      | .error e => .error e
      | .ok (t1, fs₁) =>
        match writeTracks root name tracks depth fs₁ with
        | .error e => .error e
        | .ok (t2, fs₂) => .ok (t0 ++ t1 ++ t2, fs₂)

/-- `write_hub(file, hub, depth, in_root, outdir)`: iterate the containers of
the current node in listing order. -/
def writeChildren (root : String) (cs : List HubNode) (depth : Nat) (fs : Fs) :
    Except String (String × Fs) :=
  match cs with
  | [] => .ok ("", fs)
  | cn :: rest =>
    match writeOne root cn depth fs with
    | .error e => .error e
    | .ok (t, fs₁) =>
      match writeChildren root rest depth fs₁ with
      | .error e => .error e
      | .ok r => .ok (t ++ r.1, r.2)
end

/-- The toplevel `write_hub(f, hub, 0, in_root, outdir)` call of `main`: the
wrapper dict holds the root as its single container.  (The model assumes the
input path is a bare directory name, so the key stored for the root and the
entry of the `containers` list agree, as they must for the original not to
crash on a lookup.) -/
def write_hub (root : String) (hub : HubNode) (fs : Fs) : Except String (String × Fs) :=
  writeChildren root [hub] 0 fs

/-- `main` after argument parsing: build the hub from the tree (any
`sys.exit` aborts before the trackDb file or any symlink is written), then
write the hub text (with `postContent` appended) and the symlink farm. -/
def mainRun (d : Dir) (ov : List String → Option ConfigMap) (startIndex : Nat)
    (fs : Fs) (postContent : String) : Except String (String × Fs) :=
  match buildNode [] d ov startIndex with
  | .error e => .error e
  | .ok (hub, _) =>
    match write_hub (Dir.dirName d) hub fs with
    | .error e => .error e
    | .ok r => .ok (r.1 ++ postContent, r.2)

/-! ## Derived pure views of the writer (for the proofs) -/

/-- The sequence of filesystem effects of the track loop of one container. -/
def stepsTracks (root self : String) (entries : List (String × AttrMap)) : List WStep :=
  entries.filterMap (fun p => if p.1 = self then Option.none else some (trackStep root p.1 p.2))

mutual
/-- The sequence of filesystem effects of `writeOne` (a failing self lookup
at depth > 0 contributes a failure effect before anything else). -/
def stepsNode (root : String) (cn : HubNode) (depth : Nat) : List WStep :=
  match cn with
  | .mk name children tracks =>
    (if 0 < depth then
      match ConfigMap.lookupCfg tracks name with
      | some _ => []
      | Option.none => [WStep.fail selfKeyErrorMsg]
     else []) ++ stepsList root children (depth + 1) ++ stepsTracks root name tracks

/-- The sequence of filesystem effects of `writeChildren`. -/
def stepsList (root : String) (cs : List HubNode) (depth : Nat) : List WStep :=
  match cs with
  | [] => []
  | cn :: rest => stepsNode root cn depth ++ stepsList root rest depth
end

/-- The text of the track loop of one container (meaningful whenever the
loop does not fail; on failure the run returns an error and no text). -/
def textTracks (root self : String) (entries : List (String × AttrMap)) (depth : Nat) : String :=
  match entries with
  | [] => ""
  | (k, m) :: ts =>
    if k = self then textTracks root self ts depth
    else attrLines m (depth * 5) true ++ "\n" ++ textTracks root self ts depth

mutual
/-- The text `writeOne` writes. -/
def textNode (root : String) (cn : HubNode) (depth : Nat) : String :=
  match cn with
  | .mk name children tracks =>
    (if 0 < depth then
      match ConfigMap.lookupCfg tracks name with
      | some m => attrLines m ((depth - 1) * 5) false ++ "\n"
      | Option.none => ""
     else "") ++ textList root children (depth + 1) ++ textTracks root name tracks depth

/-- The text `writeChildren` writes. -/
def textList (root : String) (cs : List HubNode) (depth : Nat) : String :=
  match cs with
  | [] => ""
  | cn :: rest => textNode root cn depth ++ textList root rest depth
end

/-- The target of the last `link` effect for a given name, if any. -/
def lastLink (S : List WStep) (n : String) : Option String :=
  match S with
  | [] => Option.none
  | s :: ss =>
    match lastLink ss n with
    | some t => some t
    | Option.none =>
      match s with
      | .link m t => if m = n then some t else Option.none
      | .fail _ => Option.none

/-- Whether some `link` effect of the sequence carries the given name. -/
def linkedIn (S : List WStep) (n : String) : Bool :=
  S.any (fun s => match s with | .link m _ => m = n | .fail _ => false)

/-! ## Derived pure views of the builder (for the proofs) -/

/-- The `track` attribute values of a track list, in order. -/
def trackIdVals (l : List (String × AttrMap)) : List Val :=
  l.filterMap (fun t => AttrMap.getKey t.2 "track")

mutual
/-- The identifiers assigned to data tracks across the hub, in the builder's
discovery order: the node's own files first (its self entry excluded), then
its child containers depth first. -/
def idsOfHub : HubNode → List Val
  | .mk name children tracks =>
    trackIdVals (tracks.filter (fun t => t.1 ≠ name)) ++ idsOfList children

/-- `idsOfHub` over sibling containers. -/
def idsOfList : List HubNode → List Val
  | [] => []
  | cn :: rest => idsOfHub cn ++ idsOfList rest
end

mutual
/-- Every directory strictly below the root carries a recognized container
suffix. -/
def descendantsOk : Dir → Bool
  | .mk _ subs _ => descListOk subs

/-- All of a list of directories are containers with good descendants. -/
def descListOk : List Dir → Bool
  | [] => true
  | d :: ds => isContainerName (Dir.dirName d) && descendantsOk d && descListOk ds
end

mutual
/-- Filesystem sanity of an input tree: the file listing of each directory
has no duplicate names (always true of a real directory). -/
def filesNodupDeep : Dir → Bool
  | .mk _ subs files => (decide files.Nodup) && filesNodupList subs

/-- `filesNodupDeep` over sibling directories. -/
def filesNodupList : List Dir → Bool
  | [] => true
  | d :: ds => filesNodupDeep d && filesNodupList ds
end

/-! ## Claim-worded comparison definitions

These two definitions follow the **spec's words**, not the source; they exist
only to be compared with the source-derived definitions above. -/

/-- Spec-worded color resolution (claim C1): first-match of the color table
against the filename; the parent name is consulted only if **no** pattern
matches the filename; else the fallback. -/
def color_filename_first (filename parent dflt : String) : String :=
  match bigwig_colors.find? (fun pc => Pat.search pc.1 filename) with
  | some pc => pc.2
  | Option.none =>
    match bigwig_colors.find? (fun pc => Pat.search pc.1 parent) with
    | some pc => pc.2
    | Option.none => dflt

/-- Spec-worded per-file track attributes (claim C4, spec §4.4): seed from
the kind-specific default template (BigWig **or** BigBed), layer the
combined-view defaults unless the container is Multiwig, set the identity
attributes, and (non-Multiwig only) layer the first-matching display-tuning
override — for **every** classified file. -/
def track_attrs_claimed (f : String) (ty : Option String) (parents : List String)
    (c : Nat) : AttrMap :=
  let t := if isBigwigFile f then bigwig_default else bigbed_default
  let t := if ty ≠ some "multiwig" then AttrMap.update t bigwig_combined else t
  let t := if 2 ≤ parents.length then AttrMap.setEntry t "parent" (.str (parents.getLastD ""))
           else AttrMap.pop t "parent"
  let t := AttrMap.setEntry t "track" (.str ("track_" ++ toString c))
  let t := AttrMap.setEntry t "bigDataUrl" (.str (relPathOf parents f))
  let t := AttrMap.setEntry t "shortLabel" (.str f)
  let t := AttrMap.setEntry t "longLabel" (.str f)
  let t := AttrMap.setEntry t "color"
    (.str (get_bigwig_color f (parents.getLastD "")
      (if isBigwigFile f then "255,0,0" else bigbedDefaultColor)))
  if ty ≠ some "multiwig" then applyFirstSpecific t f else t

/-- The spec-worded track pass: `track_attrs_claimed` applied to every
classified file, threading the counter. -/
def tracks_claimed (files : List String) (ty : Option String) (parents : List String)
    (c : Nat) : List (String × AttrMap) × Nat :=
  match files with
  | [] => ([], c)
  | f :: fs =>
    if classifiedFile f then
      let r := tracks_claimed fs ty parents (c + 1)
      ((f, track_attrs_claimed f ty parents c) :: r.1, r.2)
    else tracks_claimed fs ty parents c

/-! ## Lemmas: ordered dict operations -/

theorem find?_mapReplace (ps : AttrMap) (k : String) (v : Val) (k' : String) (h : k' ≠ k) :
    (ps.map (fun p => if p.1 = k then (k, v) else p)).find? (fun q => q.1 = k') =
      ps.find? (fun q => q.1 = k') := by
  induction ps with
  | nil => rfl
  | cons q qs ih =>
    by_cases hq : q.1 = k
    · have h1 : (decide ((k, v).1 = k')) = false := decide_eq_false (fun hh => h (hh.symm))
      have h2 : (decide (q.1 = k')) = false :=
        decide_eq_false (fun hh => h (by rw [← hh, hq]))
      simp only [List.map_cons, if_pos hq, List.find?_cons, h1, h2, ih]
    · simp only [List.map_cons, if_neg hq, List.find?_cons]
      cases hd : decide (q.1 = k') <;> simp only [ih]

theorem setEntry_cons_ne (p : String × Val) (ps : AttrMap) (k : String) (v : Val)
    (hp : p.1 ≠ k) : AttrMap.setEntry (p :: ps) k v = p :: AttrMap.setEntry ps k v := by
  unfold AttrMap.setEntry
  have hpd : (decide (p.1 = k)) = false := decide_eq_false hp
  by_cases han : ps.any (fun q => decide (q.1 = k)) = true
  · have hc : ((p :: ps).any fun q => decide (q.1 = k)) = true := by
      simp [List.any_cons, han]
    rw [if_pos hc, if_pos han, List.map_cons, if_neg hp]
  · have hanf : (ps.any fun q => decide (q.1 = k)) = false := Bool.not_eq_true _ ▸ eq_false_of_ne_true han
    have hc : ((p :: ps).any fun q => decide (q.1 = k)) = false := by
      simp [List.any_cons, hpd, hanf]
    rw [if_neg (by simp [hc]), if_neg (by simp [hanf]), List.cons_append]

theorem getKey_setEntry (m : AttrMap) (k : String) (v : Val) (k' : String) :
    AttrMap.getKey (AttrMap.setEntry m k v) k' =
      if k' = k then some v else AttrMap.getKey m k' := by
  induction m with
  | nil =>
    by_cases h : k' = k
    · simp [AttrMap.setEntry, AttrMap.getKey, List.find?, h]
    · have hd : (decide (k = k')) = false := decide_eq_false (fun hh => h hh.symm)
      simp [AttrMap.setEntry, AttrMap.getKey, List.find?, hd, h]
  | cons p ps ih =>
    by_cases hp : p.1 = k
    · have hany : ((p :: ps).any fun q => decide (q.1 = k)) = true := by
        simp [List.any_cons, hp]
      unfold AttrMap.setEntry
      rw [if_pos hany, List.map_cons, if_pos hp]
      by_cases h : k' = k
      · subst h
        simp [AttrMap.getKey, List.find?_cons]
      · unfold AttrMap.getKey
        have h1 : (decide ((k, v).1 = k')) = false := decide_eq_false (fun hh => h hh.symm)
        simp only [List.find?_cons, h1]
        rw [find?_mapReplace ps k v k' h]
        have h2 : (decide (p.1 = k')) = false :=
          decide_eq_false (fun hh => h (by rw [← hh, hp]))
        simp [List.find?_cons, h2, h]
    · rw [setEntry_cons_ne p ps k v hp]
      unfold AttrMap.getKey
      simp only [List.find?_cons]
      cases hd : decide (p.1 = k') with
      | true =>
        have hk' : p.1 = k' := of_decide_eq_true hd
        have hne : ¬ (k' = k) := fun hh => hp (by rw [hk', hh])
        simp [hne]
      | false => exact ih

theorem getKey_eq_none_of_not_mem (m : AttrMap) (k : String)
    (h : k ∉ m.map Prod.fst) : AttrMap.getKey m k = none := by
  unfold AttrMap.getKey
  rw [List.find?_eq_none.2]
  · rfl
  · intro p hp hdec
    exact h (List.mem_map.2 ⟨p, hp, of_decide_eq_true hdec⟩)

theorem getKey_update_nmem (m ov : AttrMap) (k : String)
    (h : k ∉ ov.map Prod.fst) : AttrMap.getKey (AttrMap.update m ov) k = AttrMap.getKey m k := by
  induction ov generalizing m with
  | nil => rfl
  | cons a ov' ih =>
    have hk : k ∉ ov'.map Prod.fst := by
      intro hmem; exact h (by simp [List.map_cons, hmem])
    have ha : k ≠ a.1 := by
      intro hh; exact h (by simp [List.map_cons, hh])
    show AttrMap.getKey (AttrMap.update (AttrMap.setEntry m a.1 a.2) ov') k = _
    rw [ih _ hk, getKey_setEntry, if_neg ha]

theorem getKey_cons_self (a : String × Val) (l : AttrMap) :
    AttrMap.getKey (a :: l) a.1 = some a.2 := by
  unfold AttrMap.getKey
  simp [List.find?_cons]

theorem getKey_cons_ne (a : String × Val) (l : AttrMap) (k : String) (h : a.1 ≠ k) :
    AttrMap.getKey (a :: l) k = AttrMap.getKey l k := by
  unfold AttrMap.getKey
  have hd : (decide (a.1 = k)) = false := decide_eq_false h
  simp [List.find?_cons, hd]

theorem getKey_update_nodup (m ov : AttrMap) (k : String)
    (h : (ov.map Prod.fst).Nodup) :
    AttrMap.getKey (AttrMap.update m ov) k =
      match AttrMap.getKey ov k with
      | some v => some v
      | none => AttrMap.getKey m k := by
  induction ov generalizing m with
  | nil => rfl
  | cons a ov' ih =>
    have hnd : (ov'.map Prod.fst).Nodup := by
      simpa [List.map_cons] using h.of_cons
    have hmem : a.1 ∉ ov'.map Prod.fst := by
      have h2 := h
      simp only [List.map_cons, List.nodup_cons] at h2
      exact h2.1
    show AttrMap.getKey (AttrMap.update (AttrMap.setEntry m a.1 a.2) ov') k =
      match AttrMap.getKey (a :: ov') k with
      | some v => some v
      | none => AttrMap.getKey m k
    rw [ih _ hnd]
    by_cases hk : k = a.1
    · have h1 : AttrMap.getKey ov' k = none := by
        rw [hk]; exact getKey_eq_none_of_not_mem _ _ hmem
      have h2 : AttrMap.getKey (a :: ov') k = some a.2 := by
        rw [hk]; exact getKey_cons_self a ov'
      rw [h1, h2, getKey_setEntry, if_pos hk]
    · have h2 : AttrMap.getKey (a :: ov') k = AttrMap.getKey ov' k :=
        getKey_cons_ne a ov' k (fun hh => hk hh.symm)
      rw [h2, getKey_setEntry, if_neg hk]

/-! ## Lemmas: suffix exclusivity of the classifier -/

theorem not_suffix_of_suffix {s a b : List Char} (hb : b.isSuffixOf s = true)
    (h : (if a.length ≤ b.length then a.isSuffixOf b else b.isSuffixOf a) = false) :
    a.isSuffixOf s = false := by
  by_contra hcon
  rw [Bool.not_eq_false] at hcon
  rw [List.isSuffixOf_iff_suffix] at hcon hb
  by_cases hlen : a.length ≤ b.length
  · have hab := List.suffix_of_suffix_length_le hcon hb hlen
    rw [if_pos hlen, List.isSuffixOf_iff_suffix.2 hab] at h
    exact absurd h (by simp)
  · have hba := List.suffix_of_suffix_length_le hb hcon (by omega)
    rw [if_neg hlen, List.isSuffixOf_iff_suffix.2 hba] at h
    exact absurd h (by simp)

theorem container_not_classified (n : String) (h : isContainerName n = true) :
    classifiedFile n = false := by
  unfold isContainerName at h
  simp only [Bool.or_eq_true] at h
  unfold classifiedFile isBigwigFile isBigbedFile
  simp only [Bool.or_eq_false_iff]
  rcases h with (h | h) | h
  · unfold isMultiwigName endsWithCI at h
    exact ⟨⟨not_suffix_of_suffix h (by decide), not_suffix_of_suffix h (by decide)⟩,
           not_suffix_of_suffix h (by decide), not_suffix_of_suffix h (by decide)⟩
  · unfold isCompositeName endsWithCI at h
    exact ⟨⟨not_suffix_of_suffix h (by decide), not_suffix_of_suffix h (by decide)⟩,
           not_suffix_of_suffix h (by decide), not_suffix_of_suffix h (by decide)⟩
  · unfold isSuperName endsWithCI at h
    exact ⟨⟨not_suffix_of_suffix h (by decide), not_suffix_of_suffix h (by decide)⟩,
           not_suffix_of_suffix h (by decide), not_suffix_of_suffix h (by decide)⟩

theorem bigbed_not_bigwig (f : String) (h : isBigbedFile f = true) :
    isBigwigFile f = false := by
  unfold isBigbedFile at h
  simp only [Bool.or_eq_true] at h
  unfold isBigwigFile
  simp only [Bool.or_eq_false_iff]
  rcases h with h | h
  · unfold endsWithCI at *
    exact ⟨not_suffix_of_suffix h (by decide), not_suffix_of_suffix h (by decide)⟩
  · unfold endsWithCI at *
    exact ⟨not_suffix_of_suffix h (by decide), not_suffix_of_suffix h (by decide)⟩

/-! ## Lemmas: config-level dict operations -/

theorem lookupCfg_cons_self (a : String × AttrMap) (l : ConfigMap) :
    ConfigMap.lookupCfg (a :: l) a.1 = some a.2 := by
  unfold ConfigMap.lookupCfg
  simp [List.find?_cons]

theorem lookupCfg_cons_ne (a : String × AttrMap) (l : ConfigMap) (k : String) (h : a.1 ≠ k) :
    ConfigMap.lookupCfg (a :: l) k = ConfigMap.lookupCfg l k := by
  unfold ConfigMap.lookupCfg
  have hd : (decide (a.1 = k)) = false := decide_eq_false h
  simp [List.find?_cons, hd]

theorem setCfg_append (cfg : ConfigMap) (k : String) (m : AttrMap)
    (h : k ∉ cfg.map Prod.fst) : ConfigMap.setCfg cfg k m = cfg ++ [(k, m)] := by
  unfold ConfigMap.setCfg
  have hany : (cfg.any fun p => decide (p.1 = k)) = false := by
    rw [List.any_eq_false]
    intro p hp hdec
    exact h (List.mem_map.2 ⟨p, hp, of_decide_eq_true hdec⟩)
  simp [hany]

theorem updateWith_append (cfg more : ConfigMap)
    (hdisj : ∀ t ∈ more, t.1 ∉ cfg.map Prod.fst)
    (hnd : (more.map Prod.fst).Nodup) :
    ConfigMap.updateWith cfg more = cfg ++ more := by
  induction more generalizing cfg with
  | nil => simp [ConfigMap.updateWith]
  | cons t ts ih =>
    have hset : ConfigMap.setCfg cfg t.1 t.2 = cfg ++ [(t.1, t.2)] :=
      setCfg_append cfg t.1 t.2 (hdisj t (List.mem_cons_self t ts))
    have hnd' : (ts.map Prod.fst).Nodup := by
      simpa [List.map_cons] using hnd.of_cons
    have hhead : t.1 ∉ ts.map Prod.fst := by
      have h2 := hnd
      simp only [List.map_cons, List.nodup_cons] at h2
      exact h2.1
    have hdisj' : ∀ u ∈ ts, u.1 ∉ (cfg ++ [(t.1, t.2)]).map Prod.fst := by
      intro u hu
      simp only [List.map_append, List.mem_append, List.map_cons, List.map_nil,
        List.mem_singleton]
      rintro (hc | hc)
      · exact hdisj u (List.mem_cons_of_mem _ hu) hc
      · exact hhead (hc ▸ List.mem_map.2 ⟨u, hu, rfl⟩)
    show ConfigMap.updateWith (ConfigMap.setCfg cfg t.1 t.2) ts = _
    rw [hset, ih _ hdisj' hnd']
    simp

theorem find?_mapSetAttr (cfg : ConfigMap) (e k : String) (v : Val) (n : String) (h : n ≠ e) :
    (cfg.map (fun p => if p.1 = e then (p.1, AttrMap.setEntry p.2 k v) else p)).find?
        (fun q => q.1 = n) = cfg.find? (fun q => q.1 = n) := by
  induction cfg with
  | nil => rfl
  | cons q qs ih =>
    by_cases hq : q.1 = e
    · have h2 : (decide (q.1 = n)) = false :=
        decide_eq_false (fun hh => h (by rw [← hh, hq]))
      simp only [List.map_cons, if_pos hq, List.find?_cons, h2, ih]
    · simp only [List.map_cons, if_neg hq, List.find?_cons]
      cases hd : decide (q.1 = n) <;> simp only [ih]

theorem lookupCfg_setAttr_ne (cfg : ConfigMap) (e k : String) (v : Val) (n : String)
    (h : n ≠ e) :
    ConfigMap.lookupCfg (ConfigMap.setAttr cfg e k v) n = ConfigMap.lookupCfg cfg n := by
  unfold ConfigMap.lookupCfg ConfigMap.setAttr
  rw [find?_mapSetAttr cfg e k v n h]

theorem lookupCfg_setAttr_self (cfg : ConfigMap) (e k : String) (v : Val) :
    ConfigMap.lookupCfg (ConfigMap.setAttr cfg e k v) e =
      (ConfigMap.lookupCfg cfg e).map (fun m => AttrMap.setEntry m k v) := by
  unfold ConfigMap.lookupCfg ConfigMap.setAttr
  induction cfg with
  | nil => rfl
  | cons q qs ih =>
    by_cases hq : q.1 = e
    · simp only [List.map_cons, if_pos hq, List.find?_cons]
      have hd : (decide (q.1 = e)) = true := decide_eq_true hq
      simp [hd, hq]
    · have hd : (decide (q.1 = e)) = false := decide_eq_false hq
      simp only [List.map_cons, if_neg hq, List.find?_cons, hd]
      exact ih

theorem filter_setAttr (cfg : ConfigMap) (e k : String) (v : Val) :
    (ConfigMap.setAttr cfg e k v).filter (fun t => t.1 ≠ e) =
      cfg.filter (fun t => t.1 ≠ e) := by
  unfold ConfigMap.setAttr
  induction cfg with
  | nil => rfl
  | cons q qs ih =>
    by_cases hq : q.1 = e
    · simp only [List.map_cons, if_pos hq, List.filter_cons, decide_not] at ih ⊢
      have hd : (decide (q.1 = e)) = true := decide_eq_true hq
      simp [hd, ih]
    · simp only [List.map_cons, if_neg hq, List.filter_cons, decide_not] at ih ⊢
      have hd : (decide (q.1 = e)) = false := decide_eq_false hq
      simp [hd, ih]

theorem filter_ne_of_all (l : ConfigMap) (name : String)
    (h : ∀ t ∈ l, t.1 ≠ name) : l.filter (fun t => t.1 ≠ name) = l := by
  induction l with
  | nil => rfl
  | cons q qs ih =>
    have hq : q.1 ≠ name := h q (List.mem_cons_self q qs)
    have hd : (decide (¬ (q.1 = name))) = true := by simp [hq]
    simp only [List.filter_cons, hd, if_true]
    rw [ih (fun t ht => h t (List.mem_cons_of_mem _ ht))]

theorem lookupCfg_cons_eq (a : String × AttrMap) (l : ConfigMap) (k : String)
    (h : a.1 = k) : ConfigMap.lookupCfg (a :: l) k = some a.2 := by
  subst h; exact lookupCfg_cons_self a l

theorem lookupCfg_update_config (config : ConfigMap) (d : ConfigMap) (name : String)
    (m : AttrMap) (h : ConfigMap.lookupCfg config name = some m) :
    ConfigMap.lookupCfg (update_config_from_file config (some d)) name =
      some (match ConfigMap.lookupCfg d name with
            | some ov => AttrMap.update m ov
            | Option.none => m) := by
  induction config with
  | nil => exact absurd h (by simp [ConfigMap.lookupCfg, List.find?])
  | cons q qs ih =>
    simp only [update_config_from_file, List.map_cons]
    by_cases hq : q.1 = name
    · have hm : q.2 = m := by
        have h2 := lookupCfg_cons_eq q qs name hq
        rw [h2] at h
        exact Option.some.inj h
      have hd2 : ConfigMap.lookupCfg d q.1 = ConfigMap.lookupCfg d name := by rw [hq]
      cases hlk : ConfigMap.lookupCfg d name with
      | none =>
        rw [hlk] at hd2
        simp only [hlk, hd2]
        rw [lookupCfg_cons_eq q _ name hq, hm]
      | some ov =>
        rw [hlk] at hd2
        simp only [hlk, hd2]
        rw [lookupCfg_cons_eq (q.1, AttrMap.update q.2 ov) _ name hq, hm]
    · have hh : ConfigMap.lookupCfg qs name = some m := by
        rw [← lookupCfg_cons_ne q qs name hq]; exact h
      have ihq := ih hh
      simp only [update_config_from_file] at ihq
      rw [← ihq]
      cases hlk : ConfigMap.lookupCfg d q.1 with
      | none =>
        simp only [hlk]
        exact lookupCfg_cons_ne _ _ _ hq
      | some ov =>
        simp only [hlk]
        exact lookupCfg_cons_ne _ _ _ hq

theorem lookupCfg_update_config_none (config : ConfigMap) (d : ConfigMap) (name : String)
    (m : AttrMap) (h : ConfigMap.lookupCfg config name = some m)
    (hd : ConfigMap.lookupCfg d name = Option.none) :
    ConfigMap.lookupCfg (update_config_from_file config (some d)) name = some m := by
  rw [lookupCfg_update_config config d name m h, hd]

/-! ## Lemmas: the per-track pass -/

theorem getKey_pop_ne (m : AttrMap) (k' k : String) (h : k ≠ k') :
    AttrMap.getKey (AttrMap.pop m k') k = AttrMap.getKey m k := by
  unfold AttrMap.pop AttrMap.getKey
  simp only [decide_not]
  induction m with
  | nil => rfl
  | cons q qs ih =>
    simp only [List.filter_cons]
    by_cases hq : q.1 = k'
    · have hd3 : (decide (q.1 = k')) = true := decide_eq_true hq
      have hd2 : (decide (q.1 = k)) = false :=
        decide_eq_false (fun hh => h (by rw [← hh, hq]))
      simp only [hd3, Bool.not_true, Bool.false_eq_true, if_false, ih, List.find?_cons, hd2]
    · have hd3 : (decide (q.1 = k')) = false := decide_eq_false hq
      simp only [hd3, Bool.not_false, if_true, List.find?_cons]
      cases hd : decide (q.1 = k) <;> simp only [ih]

theorem getKey_applyFirstSpecific_track (m : AttrMap) (subject : String) :
    AttrMap.getKey (applyFirstSpecific m subject) "track" = AttrMap.getKey m "track" := by
  unfold applyFirstSpecific
  cases hf : bigwig_specific.find? (fun ps => Pat.search ps.1 subject) with
  | none => rfl
  | some ps =>
    have hm : ps ∈ bigwig_specific := List.mem_of_find?_eq_some hf
    simp only [bigwig_specific, List.mem_cons, List.not_mem_nil, or_false] at hm
    rcases hm with rfl | rfl | rfl | rfl | rfl | rfl
    all_goals exact getKey_update_nmem _ _ _ (by decide)

theorem getKey_bigwig_track_config_track (f : String) (ty : Option String)
    (parents : List String) (c : Nat) :
    AttrMap.getKey (bigwig_track_config f ty parents c) "track" =
      some (.str ("track_" ++ toString c)) := by
  unfold bigwig_track_config
  have h1 : ∀ (X : AttrMap),
      AttrMap.getKey (if ty ≠ some "multiwig" then applyFirstSpecific X f else X) "track" =
        AttrMap.getKey X "track" := by
    intro X
    split
    · exact getKey_applyFirstSpecific_track X f
    · rfl
  rw [h1]
  rw [getKey_setEntry, if_neg (by decide), getKey_setEntry, if_neg (by decide),
    getKey_setEntry, if_neg (by decide), getKey_setEntry, if_neg (by decide),
    getKey_setEntry, if_pos rfl]

theorem getKey_bigbed_track_config_track (f : String) (parents : List String) (c : Nat) :
    AttrMap.getKey (bigbed_track_config f parents c) "track" =
      some (.str ("track_" ++ toString c)) := by
  unfold bigbed_track_config
  rw [getKey_setEntry, if_neg (by decide), getKey_setEntry, if_neg (by decide),
    getKey_setEntry, if_neg (by decide), getKey_setEntry, if_neg (by decide),
    getKey_setEntry, if_pos rfl]

theorem tracks_keys (files : List String) (ty : Option String) (parents : List String)
    (c : Nat) :
    (get_tracks_config files ty parents c).1.map Prod.fst = files.filter classifiedFile := by
  induction files generalizing c with
  | nil => rfl
  | cons f fs ih =>
    by_cases hbw : isBigwigFile f = true
    · have hc : classifiedFile f = true := by simp [classifiedFile, hbw]
      simp only [get_tracks_config, hbw, if_true, List.map_cons, List.filter_cons, hc, ih]
    · have hbwf : isBigwigFile f = false := eq_false_of_ne_true hbw
      by_cases hbb : isBigbedFile f = true
      · have hc : classifiedFile f = true := by simp [classifiedFile, hbb]
        simp only [get_tracks_config, hbwf, Bool.false_eq_true, if_false, hbb, if_true,
          List.map_cons, List.filter_cons, hc, ih]
      · have hbbf : isBigbedFile f = false := eq_false_of_ne_true hbb
        have hc : classifiedFile f = false := by simp [classifiedFile, hbwf, hbbf]
        simp only [get_tracks_config, hbwf, Bool.false_eq_true, if_false, hbbf,
          List.filter_cons, hc, ih]

theorem tracks_counter (files : List String) (ty : Option String) (parents : List String)
    (c : Nat) :
    (get_tracks_config files ty parents c).2 = c + (files.filter classifiedFile).length := by
  induction files generalizing c with
  | nil => simp [get_tracks_config]
  | cons f fs ih =>
    by_cases hbw : isBigwigFile f = true
    · have hc : classifiedFile f = true := by simp [classifiedFile, hbw]
      simp only [get_tracks_config, hbw, if_true, List.filter_cons, hc, List.length_cons, ih]
      omega
    · have hbwf : isBigwigFile f = false := eq_false_of_ne_true hbw
      by_cases hbb : isBigbedFile f = true
      · have hc : classifiedFile f = true := by simp [classifiedFile, hbb]
        simp only [get_tracks_config, hbwf, Bool.false_eq_true, if_false, hbb, if_true,
          List.filter_cons, hc, List.length_cons, ih]
        omega
      · have hbbf : isBigbedFile f = false := eq_false_of_ne_true hbb
        have hc : classifiedFile f = false := by simp [classifiedFile, hbwf, hbbf]
        simp only [get_tracks_config, hbwf, Bool.false_eq_true, if_false, hbbf,
          List.filter_cons, hc, ih]

theorem rangeMap_succ (n : Nat) (f : Nat → Val) :
    (List.range (n + 1)).map f = f 0 :: (List.range n).map (fun i => f (i + 1)) := by
  rw [List.range_succ_eq_map, List.map_cons, List.map_map]
  congr 1

theorem tracks_ids (files : List String) (ty : Option String) (parents : List String)
    (c : Nat) :
    trackIdVals (get_tracks_config files ty parents c).1 =
      (List.range (files.filter classifiedFile).length).map
        (fun i => Val.str ("track_" ++ toString (c + i))) := by
  induction files generalizing c with
  | nil => rfl
  | cons f fs ih =>
    by_cases hbw : isBigwigFile f = true
    · have hc : classifiedFile f = true := by simp [classifiedFile, hbw]
      simp only [get_tracks_config, hbw, if_true, List.filter_cons, hc, List.length_cons,
        trackIdVals, List.filterMap_cons, getKey_bigwig_track_config_track]
      have ih2 := ih (c + 1)
      simp only [trackIdVals] at ih2
      rw [ih2, rangeMap_succ]
      refine congrArg₂ _ (by rw [Nat.add_zero]) ?_
      refine List.map_congr_left ?_
      intro i _
      rw [show c + (i + 1) = (c + 1) + i by omega]
    · have hbwf : isBigwigFile f = false := eq_false_of_ne_true hbw
      by_cases hbb : isBigbedFile f = true
      · have hc : classifiedFile f = true := by simp [classifiedFile, hbb]
        simp only [get_tracks_config, hbwf, Bool.false_eq_true, if_false, hbb, if_true,
          List.filter_cons, hc, List.length_cons, trackIdVals, List.filterMap_cons,
          getKey_bigbed_track_config_track]
        have ih2 := ih (c + 1)
        simp only [trackIdVals] at ih2
        rw [ih2, rangeMap_succ]
        refine congrArg₂ _ (by rw [Nat.add_zero]) ?_
        refine List.map_congr_left ?_
        intro i _
        rw [show c + (i + 1) = (c + 1) + i by omega]
      · have hbbf : isBigbedFile f = false := eq_false_of_ne_true hbb
        have hc : classifiedFile f = false := by simp [classifiedFile, hbwf, hbbf]
        simp only [get_tracks_config, hbwf, Bool.false_eq_true, if_false, hbbf,
          List.filter_cons, hc, ih]

/-! ## Lemmas: container configuration -/

theorem update_config_none (config : ConfigMap) :
    update_config_from_file config Option.none = config := rfl

theorem setCfg_nil (k : String) (m : AttrMap) : ConfigMap.setCfg [] k m = [(k, m)] := rfl

theorem setAttr_cons_eq (e : String) (m : AttrMap) (l : ConfigMap) (k : String) (v : Val) :
    ConfigMap.setAttr ((e, m) :: l) e k v =
      (e, AttrMap.setEntry m k v) :: ConfigMap.setAttr l e k v := by
  simp [ConfigMap.setAttr]

theorem setAttr_not_mem (l : ConfigMap) (e k : String) (v : Val)
    (h : ∀ t ∈ l, t.1 ≠ e) : ConfigMap.setAttr l e k v = l := by
  unfold ConfigMap.setAttr
  induction l with
  | nil => rfl
  | cons q qs ih =>
    have hq : q.1 ≠ e := h q (List.mem_cons_self q qs)
    rw [List.map_cons, if_neg hq, ih (fun t ht => h t (List.mem_cons_of_mem _ ht))]

theorem genTypeOf_none_of_not_container (n : String) (h : isContainerName n = false) :
    genTypeOf n = Option.none := by
  unfold isContainerName at h
  simp only [Bool.or_eq_false_iff] at h
  unfold genTypeOf
  rw [h.1.1, h.1.2, h.2]
  rfl

theorem genTypeOf_some_container (n : String) (g : String)
    (h : genTypeOf n = some g) : isContainerName n = true := by
  by_cases hc : isContainerName n = true
  · exact hc
  · rw [genTypeOf_none_of_not_container n (eq_false_of_ne_true hc)] at h
    exact Option.noConfusion h

/-- Claim C8's per-directory core: an unsuffixed directory below the root is
rejected with the structural message (lines 179-190 of the source). -/
theorem container_error_unsuffixed (parents files : List String) (ov : Option ConfigMap)
    (c : Nat) (hlen : 1 < parents.length)
    (hnc : isContainerName (parents.getLastD "") = false) :
    get_container_config parents files ov c = .error structuralMsg := by
  simp only [get_container_config]
  rw [if_pos ⟨genTypeOf_none_of_not_container _ hnc, hlen⟩]

theorem container_ok_container_name (parents files : List String) (ov : Option ConfigMap)
    (c : Nat) (r : ConfigMap × Nat) (hlen : 1 < parents.length)
    (hok : get_container_config parents files ov c = .ok r) :
    isContainerName (parents.getLastD "") = true := by
  by_cases hc : isContainerName (parents.getLastD "") = true
  · exact hc
  · rw [container_error_unsuffixed parents files ov c hlen (eq_false_of_ne_true hc)] at hok
    exact Except.noConfusion hok

/-- Successful `get_container_config` (without an override document): the
resulting config is the container's own entry followed by the per-file
tracks, and the counter is the per-file pass's counter. -/
theorem container_ok_shape (parents files : List String) (c : Nat) (cfg : ConfigMap)
    (c₁ : Nat) (hnc : classifiedFile (parents.getLastD "") = false)
    (hnd : files.Nodup)
    (hok : get_container_config parents files Option.none c = .ok (cfg, c₁)) :
    c₁ = (get_tracks_config files (genTypeOf (parents.getLastD "")) parents c).2 ∧
    ∃ CC, cfg = (parents.getLastD "", CC) ::
      (get_tracks_config files (genTypeOf (parents.getLastD "")) parents c).1 ∧
      ((genTypeOf (parents.getLastD "") = some "composite" ∨
        genTypeOf (parents.getLastD "") = some "multiwig") →
        AttrMap.getKey CC "type" =
          some ((distinctVals
            ((get_tracks_config files (genTypeOf (parents.getLastD "")) parents c).1.filterMap
              (fun t => AttrMap.getKey t.2 "type"))).headD (Val.str "bigWig"))) := by
  have hkeys := tracks_keys files (genTypeOf (parents.getLastD "")) parents c
  have hdisj : ∀ t ∈ (get_tracks_config files (genTypeOf (parents.getLastD "")) parents c).1,
      t.1 ≠ parents.getLastD "" := by
    intro t ht heq
    have hmem : t.1 ∈ files.filter classifiedFile := by
      rw [← hkeys]
      exact List.mem_map.2 ⟨t, ht, rfl⟩
    have hcl : classifiedFile t.1 = true := (List.mem_filter.1 hmem).2
    rw [heq, hnc] at hcl
    exact Bool.noConfusion hcl
  have hknd : ((get_tracks_config files (genTypeOf (parents.getLastD "")) parents c).1.map
      Prod.fst).Nodup := by
    rw [hkeys]; exact hnd.filter _
  have hupd : ∀ X : AttrMap,
      ConfigMap.updateWith (ConfigMap.setCfg [] (parents.getLastD "") X)
        (get_tracks_config files (genTypeOf (parents.getLastD "")) parents c).1 =
      (parents.getLastD "", X) ::
        (get_tracks_config files (genTypeOf (parents.getLastD "")) parents c).1 := by
    intro X
    rw [setCfg_nil, updateWith_append _ _ ?_ hknd]
    · rfl
    · intro t ht
      simp only [List.map_cons, List.map_nil, List.mem_singleton]
      exact hdisj t ht
  simp only [get_container_config] at hok
  by_cases hs : genTypeOf (parents.getLastD "") = Option.none ∧ 1 < parents.length
  · rw [if_pos hs] at hok
    exact Except.noConfusion hok
  · rw [if_neg hs] at hok
    by_cases hcm : genTypeOf (parents.getLastD "") = some "composite" ∨
        genTypeOf (parents.getLastD "") = some "multiwig"
    · rw [if_pos hcm] at hok
      by_cases hl2 : 1 < (distinctVals
          ((get_tracks_config files (genTypeOf (parents.getLastD "")) parents c).1.filterMap
            (fun t => AttrMap.getKey t.2 "type"))).length
      · rw [if_pos hl2] at hok
        exact Except.noConfusion hok
      · rw [if_neg hl2] at hok
        by_cases hmw : genTypeOf (parents.getLastD "") = some "multiwig" ∧
            (distinctVals
              ((get_tracks_config files (genTypeOf (parents.getLastD "")) parents c).1.filterMap
                (fun t => AttrMap.getKey t.2 "type"))).headD (Val.str "bigWig") ≠
              Val.str "bigWig"
        · rw [if_pos hmw] at hok
          exact Except.noConfusion hok
        · rw [if_neg hmw] at hok
          rw [update_config_none] at hok
          injection hok with hpair
          injection hpair with hcfg hc1
          rw [hupd, setAttr_cons_eq, setAttr_not_mem _ _ _ _ hdisj] at hcfg
          exact ⟨hc1.symm, ⟨_, hcfg.symm, fun _ => by rw [getKey_setEntry, if_pos rfl]⟩⟩
    · rw [if_neg hcm, update_config_none] at hok
      injection hok with hpair
      injection hpair with hcfg hc1
      rw [hupd] at hcfg
      exact ⟨hc1.symm, ⟨_, hcfg.symm, fun hcm2 => absurd hcm2 hcm⟩⟩

/-! ## Lemmas: the directory walk -/

theorem getLastD_concat (l : List String) (a : String) :
    (l ++ [a]).getLastD "" = a := by
  induction l with
  | nil => rfl
  | cons x xs ih =>
    cases xs with
    | nil => rfl
    | cons y ys => simpa using ih

theorem buildNode_ok_container (ps : List String) (name : String) (subs : List Dir)
    (files : List String) (ov : List String → Option ConfigMap) (c : Nat)
    (r : HubNode × Nat) (hps : ps ≠ [])
    (h : buildNode ps (.mk name subs files) ov c = .ok r) :
    isContainerName name = true := by
  unfold buildNode at h
  cases hg : get_container_config (ps ++ [name]) files (ov (ps ++ [name])) c with
  | error e => rw [hg] at h; exact Except.noConfusion h
  | ok p =>
    have hlen : 1 < (ps ++ [name]).length := by
      cases ps with
      | nil => exact absurd rfl hps
      | cons x xs => simp
    have := container_ok_container_name (ps ++ [name]) files (ov (ps ++ [name])) c p hlen hg
    rwa [getLastD_concat] at this

mutual
theorem buildOk_descOk (d : Dir) : ∀ (ps : List String)
    (ov : List String → Option ConfigMap) (c : Nat) (r : HubNode × Nat),
    buildNode ps d ov c = .ok r → descendantsOk d = true :=
  match d with
  | .mk name subs files => by
    intro ps ov c r h
    unfold buildNode at h
    cases hg : get_container_config (ps ++ [name]) files (ov (ps ++ [name])) c with
    | error e => rw [hg] at h; exact Except.noConfusion h
    | ok p =>
      rw [hg] at h
      obtain ⟨cfg, c₁⟩ := p
      dsimp only [] at h
      cases hb : buildList (ps ++ [name]) subs ov c₁ with
      | error e => rw [hb] at h; exact Except.noConfusion h
      | ok q =>
        show descListOk subs = true
        exact buildListOk_descOk subs (ps ++ [name]) ov c₁ q (by simp) hb

theorem buildListOk_descOk (ds : List Dir) : ∀ (ps : List String)
    (ov : List String → Option ConfigMap) (c : Nat) (r : List HubNode × Nat),
    ps ≠ [] → buildList ps ds ov c = .ok r → descListOk ds = true :=
  match ds with
  | [] => by intro ps ov c r hps h; rfl
  | d :: ds' => by
    intro ps ov c r hps h
    unfold buildList at h
    cases hn : buildNode ps d ov c with
    | error e => rw [hn] at h; exact Except.noConfusion h
    | ok p =>
      rw [hn] at h
      obtain ⟨hd, c₁⟩ := p
      dsimp only [] at h
      cases hl : buildList ps ds' ov c₁ with
      | error e => rw [hl] at h; exact Except.noConfusion h
      | ok q =>
        have h1 : isContainerName (Dir.dirName d) = true := by
          cases d with
          | mk n ss fs => exact buildNode_ok_container ps n ss fs ov c _ hps hn
        have h2 : descendantsOk d = true := buildOk_descOk d ps ov c _ hn
        have h3 : descListOk ds' = true := buildListOk_descOk ds' ps ov c₁ q hps hl
        show (isContainerName (Dir.dirName d) && descendantsOk d && descListOk ds') = true
        rw [h1, h2, h3]
        rfl
end

theorem rangeMap_add (a b cc : Nat) :
    (List.range (a + b)).map (fun i => Val.str ("track_" ++ toString (cc + i))) =
      (List.range a).map (fun i => Val.str ("track_" ++ toString (cc + i))) ++
      (List.range b).map (fun i => Val.str ("track_" ++ toString ((cc + a) + i))) := by
  rw [List.range_add, List.map_append, List.map_map]
  congr 1
  refine List.map_congr_left ?_
  intro i _
  simp only [Function.comp]
  rw [show cc + (a + i) = cc + a + i by omega]

theorem tracks_disjoint_name (files : List String) (ty : Option String)
    (parents : List String) (c : Nat) (name : String)
    (hnc : classifiedFile name = false) :
    ∀ t ∈ (get_tracks_config files ty parents c).1, t.1 ≠ name := by
  intro t ht heq
  have hmem : t.1 ∈ files.filter classifiedFile := by
    rw [← tracks_keys files ty parents c]
    exact List.mem_map.2 ⟨t, ht, rfl⟩
  have hcl : classifiedFile t.1 = true := (List.mem_filter.1 hmem).2
  rw [heq, hnc] at hcl
  exact Bool.noConfusion hcl

mutual
theorem buildIds (d : Dir) : ∀ (ps : List String) (c : Nat) (hub : HubNode) (c' : Nat),
    buildNode ps d (fun _ => Option.none) c = .ok (hub, c') →
    filesNodupDeep d = true → classifiedFile (Dir.dirName d) = false →
    c ≤ c' ∧ idsOfHub hub =
      (List.range (c' - c)).map (fun i => Val.str ("track_" ++ toString (c + i))) :=
  match d with
  | .mk name subs files => by
    intro ps c hub c' h hnd hnc
    have hndf : files.Nodup := by
      unfold filesNodupDeep at hnd
      simp only [Bool.and_eq_true, decide_eq_true_eq] at hnd
      exact hnd.1
    have hnds : filesNodupList subs = true := by
      unfold filesNodupDeep at hnd
      simp only [Bool.and_eq_true] at hnd
      exact hnd.2
    unfold buildNode at h
    cases hg : get_container_config (ps ++ [name]) files Option.none c with
    | error e => rw [hg] at h; exact Except.noConfusion h
    | ok p =>
      rw [hg] at h
      obtain ⟨cfg, c₁⟩ := p
      dsimp only [] at h
      cases hb : buildList (ps ++ [name]) subs (fun _ => Option.none) c₁ with
      | error e => rw [hb] at h; exact Except.noConfusion h
      | ok q =>
        rw [hb] at h
        obtain ⟨children, c₂⟩ := q
        dsimp only [] at h
        injection h with hpair
        injection hpair with hhub hc2
        have hnc2 : classifiedFile ((ps ++ [name]).getLastD "") = false := by
          rwa [getLastD_concat]
        obtain ⟨hc1, CC, hcfg, -⟩ := container_ok_shape (ps ++ [name]) files c cfg c₁ hnc2 hndf hg
        have hrec := buildListIds subs (ps ++ [name]) c₁ children c₂ hb hnds (by simp)
        have hcount := tracks_counter files (genTypeOf ((ps ++ [name]).getLastD "")) (ps ++ [name]) c
        rw [hcount] at hc1
        have hids := tracks_ids files (genTypeOf ((ps ++ [name]).getLastD "")) (ps ++ [name]) c
        subst hhub hc2
        constructor
        · omega
        · unfold idsOfHub
          rw [hcfg]
          have hfilter : List.filter (fun t => t.1 ≠ name)
              (((ps ++ [name]).getLastD "", CC) ::
                (get_tracks_config files (genTypeOf ((ps ++ [name]).getLastD ""))
                  (ps ++ [name]) c).1) =
              (get_tracks_config files (genTypeOf ((ps ++ [name]).getLastD ""))
                (ps ++ [name]) c).1 := by
            rw [List.filter_cons]
            have hself : (decide ¬(((ps ++ [name]).getLastD "", CC).1 = name)) = false := by
              simp [getLastD_concat]
            simp only [decide_not] at hself ⊢
            rw [hself]
            simp only [Bool.false_eq_true, if_false]
            have hdisj := tracks_disjoint_name files
              (genTypeOf ((ps ++ [name]).getLastD "")) (ps ++ [name]) c name
              (by rwa [getLastD_concat] at hnc2)
            have := filter_ne_of_all (get_tracks_config files
              (genTypeOf ((ps ++ [name]).getLastD "")) (ps ++ [name]) c).1 name hdisj
            simp only [decide_not] at this
            exact this
          rw [hfilter, hids]
          obtain ⟨hle2, hids2⟩ := hrec
          rw [hids2]
          have hsplit := rangeMap_add (files.filter classifiedFile).length (c₂ - c₁) c
          rw [show c + (files.filter classifiedFile).length = c₁ by omega] at hsplit
          rw [show (files.filter classifiedFile).length + (c₂ - c₁) = c₂ - c by omega] at hsplit
          exact hsplit.symm

theorem buildListIds (ds : List Dir) : ∀ (ps : List String) (c : Nat)
    (hubs : List HubNode) (c' : Nat),
    buildList ps ds (fun _ => Option.none) c = .ok (hubs, c') →
    filesNodupList ds = true → ps ≠ [] →
    c ≤ c' ∧ idsOfList hubs =
      (List.range (c' - c)).map (fun i => Val.str ("track_" ++ toString (c + i))) :=
  match ds with
  | [] => by
    intro ps c hubs c' h hnd hps
    unfold buildList at h
    injection h with hpair
    injection hpair with hhubs hc
    subst hhubs hc
    exact ⟨Nat.le_refl c, by simp [idsOfList]⟩
  | d :: ds' => by
    intro ps c hubs c' h hnd hps
    have hnd1 : filesNodupDeep d = true := by
      unfold filesNodupList at hnd
      simp only [Bool.and_eq_true] at hnd
      exact hnd.1
    have hnd2 : filesNodupList ds' = true := by
      unfold filesNodupList at hnd
      simp only [Bool.and_eq_true] at hnd
      exact hnd.2
    unfold buildList at h
    cases hn : buildNode ps d (fun _ => Option.none) c with
    | error e => rw [hn] at h; exact Except.noConfusion h
    | ok p =>
      rw [hn] at h
      obtain ⟨hd, c₁⟩ := p
      dsimp only [] at h
      cases hl : buildList ps ds' (fun _ => Option.none) c₁ with
      | error e => rw [hl] at h; exact Except.noConfusion h
      | ok q =>
        rw [hl] at h
        obtain ⟨hs, c₂⟩ := q
        dsimp only [] at h
        injection h with hpair
        injection hpair with hhubs hc2
        subst hhubs hc2
        have hcont : isContainerName (Dir.dirName d) = true := by
          cases d with
          | mk n ss fs => exact buildNode_ok_container ps n ss fs _ c _ hps hn
        have hnc : classifiedFile (Dir.dirName d) = false := container_not_classified _ hcont
        obtain ⟨hle1, hids1⟩ := buildIds d ps c hd c₁ hn hnd1 hnc
        obtain ⟨hle2, hids2⟩ := buildListIds ds' ps c₁ hs c₂ hl hnd2 hps
        constructor
        · omega
        · unfold idsOfList
          rw [hids1, hids2]
          have hsplit := rangeMap_add (c₁ - c) (c₂ - c₁) c
          rw [show c + (c₁ - c) = c₁ by omega] at hsplit
          rw [show (c₁ - c) + (c₂ - c₁) = c₂ - c by omega] at hsplit
          exact hsplit.symm
end

/-! ## Lemmas: output directory primitives -/

theorem lookupFs_singleton (name : String) (e : FsEntry) (n : String) :
    lookupFs [(name, e)] n = if n = name then some e else Option.none := by
  unfold lookupFs
  by_cases h : n = name
  · have hd : (decide (name = n)) = true := decide_eq_true h.symm
    simp [List.find?, hd, h]
  · have hd : (decide (name = n)) = false := decide_eq_false (fun hh => h hh.symm)
    simp [List.find?, hd, h]

theorem lookupFs_append (a b : Fs) (n : String) :
    lookupFs (a ++ b) n = (lookupFs a n).or (lookupFs b n) := by
  unfold lookupFs
  rw [List.find?_append]
  cases List.find? (fun p => decide (p.1 = n)) a <;> rfl

theorem lookupFs_removeFs_self (fs : Fs) (n : String) :
    lookupFs (removeFs fs n) n = Option.none := by
  unfold removeFs lookupFs
  rw [List.find?_eq_none.2]
  · rfl
  · intro p hp hdec
    have hmem := List.mem_filter.1 hp
    have : p.1 ≠ n := by simpa using hmem.2
    exact this (of_decide_eq_true hdec)

theorem lookupFs_removeFs_ne (fs : Fs) (n m : String) (h : m ≠ n) :
    lookupFs (removeFs fs n) m = lookupFs fs m := by
  unfold removeFs lookupFs
  simp only [decide_not]
  induction fs with
  | nil => rfl
  | cons q qs ih =>
    simp only [List.filter_cons]
    by_cases hq : q.1 = n
    · have hd3 : (decide (q.1 = n)) = true := decide_eq_true hq
      have hd2 : (decide (q.1 = m)) = false :=
        decide_eq_false (fun hh => h (by rw [← hh, hq]))
      simp only [hd3, Bool.not_true, Bool.false_eq_true, if_false, ih, List.find?_cons, hd2]
    · have hd3 : (decide (q.1 = n)) = false := decide_eq_false hq
      simp only [hd3, Bool.not_false, if_true, List.find?_cons]
      cases hd : decide (q.1 = m) <;> simp only [ih]

theorem linkTrack_ok_lookup (fs : Fs) (name target : String) (g : Fs)
    (h : linkTrack fs name target = .ok g) :
    ∀ n, lookupFs g n = if n = name then some (.symlink target) else lookupFs fs n := by
  unfold linkTrack at h
  cases hl : lookupFs fs name with
  | none =>
    rw [hl] at h
    dsimp only [] at h
    rw [hl] at h
    dsimp only [] at h
    injection h with hg
    intro n
    rw [← hg, lookupFs_append, lookupFs_singleton]
    by_cases hn : n = name
    · rw [hn, hl]; simp [hn]
    · simp only [if_neg hn]
      cases lookupFs fs n <;> rfl
  | some e =>
    cases e with
    | file =>
      rw [hl] at h
      dsimp only [] at h
      rw [hl] at h
      dsimp only [] at h
      exact Except.noConfusion h
    | dir =>
      rw [hl] at h
      dsimp only [] at h
      rw [hl] at h
      dsimp only [] at h
      exact Except.noConfusion h
    | symlink t =>
      rw [hl] at h
      dsimp only [] at h
      rw [lookupFs_removeFs_self] at h
      dsimp only [] at h
      injection h with hg
      intro n
      rw [← hg, lookupFs_append, lookupFs_singleton]
      by_cases hn : n = name
      · rw [hn, lookupFs_removeFs_self]; simp [hn]
      · rw [lookupFs_removeFs_ne fs name n hn]
        simp only [if_neg hn]
        cases lookupFs fs n <;> rfl

theorem linkTrack_ok_of (fs : Fs) (name target : String)
    (h : lookupFs fs name = Option.none ∨ ∃ t, lookupFs fs name = some (.symlink t)) :
    ∃ g, linkTrack fs name target = .ok g := by
  unfold linkTrack
  rcases h with h | ⟨t, h⟩
  · rw [h]
    dsimp only []
    rw [h]
    exact ⟨_, rfl⟩
  · rw [h]
    dsimp only []
    rw [lookupFs_removeFs_self]
    exact ⟨_, rfl⟩

theorem linkTrack_error_nonlink (fs : Fs) (name target : String) (e : FsEntry)
    (h : lookupFs fs name = some e) (he : ∀ t, e ≠ FsEntry.symlink t) :
    linkTrack fs name target = .error fileExistsMsg := by
  unfold linkTrack
  cases e with
  | file => rw [h]; dsimp only []; rw [h]
  | dir => rw [h]; dsimp only []; rw [h]
  | symlink t => exact absurd rfl (he t)

/-! ## Lemmas: effect sequences -/

theorem runSteps_cons (fs : Fs) (s : WStep) (ss : List WStep) :
    runSteps fs (s :: ss) =
      match runStep fs s with
      | .error e => .error e
      | .ok fs₁ => runSteps fs₁ ss := rfl

theorem runStep_link (fs : Fs) (m t : String) :
    runStep fs (.link m t) = linkTrack fs m t := rfl

theorem runStep_fail (fs : Fs) (msg : String) :
    runStep fs (.fail msg) = .error msg := rfl

theorem lastLink_cons (s : WStep) (ss : List WStep) (n : String) :
    lastLink (s :: ss) n =
      match lastLink ss n with
      | some t => some t
      | Option.none =>
        match s with
        | .link m t => if m = n then some t else Option.none
        | .fail _ => Option.none := rfl

theorem runSteps_append (fs : Fs) (S₁ S₂ : List WStep) :
    runSteps fs (S₁ ++ S₂) =
      match runSteps fs S₁ with
      | .error e => .error e
      | .ok fs₁ => runSteps fs₁ S₂ := by
  induction S₁ generalizing fs with
  | nil => rfl
  | cons s ss ih =>
    rw [List.cons_append, runSteps_cons, runSteps_cons]
    cases hr : runStep fs s with
    | error e => rfl
    | ok fs₁ => exact ih fs₁

theorem runSteps_ok_lookup (S : List WStep) : ∀ (fs fs' : Fs),
    runSteps fs S = .ok fs' →
    ∀ n, lookupFs fs' n =
      match lastLink S n with
      | some t => some (.symlink t)
      | Option.none => lookupFs fs n := by
  induction S with
  | nil =>
    intro fs fs' h n
    injection h with h
    rw [← h]
    rfl
  | cons s ss ih =>
    intro fs fs' h n
    rw [runSteps_cons] at h
    cases hr : runStep fs s with
    | error e => rw [hr] at h; exact Except.noConfusion h
    | ok fs₁ =>
      rw [hr] at h
      dsimp only [] at h
      have hmid := ih fs₁ fs' h n
      rw [lastLink_cons]
      cases hll : lastLink ss n with
      | some t => rw [hll] at hmid; exact hmid
      | none =>
        rw [hll] at hmid
        rw [hmid]
        cases s with
        | fail msg => rw [runStep_fail] at hr; exact Except.noConfusion hr
        | link m t =>
          rw [runStep_link] at hr
          have hlk := linkTrack_ok_lookup fs m t fs₁ hr n
          dsimp only []
          by_cases hn : m = n
          · rw [if_pos hn]
            dsimp only []
            rw [hlk, if_pos hn.symm]
          · rw [if_neg hn]
            dsimp only []
            rw [hlk, if_neg (fun hh => hn hh.symm)]

theorem runSteps_ok_noFail (S : List WStep) : ∀ (fs fs' : Fs) (msg : String),
    runSteps fs S = .ok fs' → WStep.fail msg ∉ S := by
  induction S with
  | nil => intro fs fs' msg _; exact List.not_mem_nil _
  | cons s ss ih =>
    intro fs fs' msg h
    rw [runSteps_cons] at h
    cases hr : runStep fs s with
    | error e => rw [hr] at h; exact Except.noConfusion h
    | ok fs₁ =>
      rw [hr] at h
      dsimp only [] at h
      intro hmem
      rcases List.mem_cons.1 hmem with heq | hmem'
      · rw [← heq, runStep_fail] at hr
        exact Except.noConfusion hr
      · exact ih fs₁ fs' msg h hmem'

theorem lastLink_isSome_of_linkedIn (S : List WStep) (n : String)
    (h : linkedIn S n = true) : ∃ t, lastLink S n = some t := by
  induction S with
  | nil => exact absurd h (by simp [linkedIn])
  | cons s ss ih =>
    rw [lastLink_cons]
    cases hll : lastLink ss n with
    | some t => exact ⟨t, rfl⟩
    | none =>
      unfold linkedIn at h
      rw [List.any_cons, Bool.or_eq_true] at h
      rcases h with hh | hh
      · cases s with
        | fail msg => exact Bool.noConfusion hh
        | link m t =>
          have hm : m = n := of_decide_eq_true hh
          exact ⟨t, by dsimp only []; rw [if_pos hm]⟩
      · obtain ⟨t, ht⟩ := ih hh
        rw [ht] at hll
        exact Option.noConfusion hll

theorem runSteps_rerun_ok (S : List WStep) : ∀ (fs : Fs),
    (∀ n, linkedIn S n = true →
      lookupFs fs n = Option.none ∨ ∃ t, lookupFs fs n = some (.symlink t)) →
    (∀ msg, WStep.fail msg ∉ S) →
    ∃ fs', runSteps fs S = .ok fs' := by
  induction S with
  | nil => intro fs _ _; exact ⟨fs, rfl⟩
  | cons s ss ih =>
    intro fs hlinks hnf
    cases s with
    | fail msg => exact absurd (List.mem_cons_self _ _) (hnf msg)
    | link m t =>
      have hm : linkedIn (WStep.link m t :: ss) m = true := by
        unfold linkedIn
        rw [List.any_cons]
        simp
      obtain ⟨g, hg⟩ := linkTrack_ok_of fs m t (hlinks m hm)
      have hnext : ∀ n, linkedIn ss n = true →
          lookupFs g n = Option.none ∨ ∃ u, lookupFs g n = some (.symlink u) := by
        intro n hn
        have hlk := linkTrack_ok_lookup fs m t g hg n
        by_cases hnm : n = m
        · right
          exact ⟨t, by rw [hlk, if_pos hnm]⟩
        · rw [hlk, if_neg hnm]
          refine hlinks n ?_
          unfold linkedIn at hn ⊢
          rw [List.any_cons, Bool.or_eq_true]
          exact Or.inr hn
      have hnf' : ∀ msg, WStep.fail msg ∉ ss := by
        intro msg hmem
        exact hnf msg (List.mem_cons_of_mem _ hmem)
      obtain ⟨fs', hfs'⟩ := ih g hnext hnf'
      refine ⟨fs', ?_⟩
      rw [runSteps_cons, runStep_link, hg]
      exact hfs'

/-- Re-running a successful effect sequence succeeds again and leaves the
directory extensionally unchanged. -/
theorem runSteps_idempotent (S : List WStep) (fs fs₁ : Fs)
    (h : runSteps fs S = .ok fs₁) :
    ∃ fs₂, runSteps fs₁ S = .ok fs₂ ∧ ∀ n, lookupFs fs₂ n = lookupFs fs₁ n := by
  have hnf : ∀ msg, WStep.fail msg ∉ S := fun msg => runSteps_ok_noFail S fs fs₁ msg h
  have hchar := runSteps_ok_lookup S fs fs₁ h
  have hstart : ∀ n, linkedIn S n = true →
      lookupFs fs₁ n = Option.none ∨ ∃ t, lookupFs fs₁ n = some (.symlink t) := by
    intro n hn
    obtain ⟨t, ht⟩ := lastLink_isSome_of_linkedIn S n hn
    right
    exact ⟨t, by rw [hchar n, ht]⟩
  obtain ⟨fs₂, hfs₂⟩ := runSteps_rerun_ok S fs₁ hstart hnf
  refine ⟨fs₂, hfs₂, ?_⟩
  intro n
  have hchar₂ := runSteps_ok_lookup S fs₁ fs₂ hfs₂ n
  rw [hchar₂]
  cases hll : lastLink S n with
  | some t => rw [hchar n, hll]
  | none => rfl

/-- If some effect of the sequence links a name whose current entry is not a
symlink, running the sequence fails. -/
theorem runSteps_error_nonlink (S : List WStep) : ∀ (fs : Fs) (name : String) (e : FsEntry),
    linkedIn S name = true → lookupFs fs name = some e →
    (∀ t, e ≠ FsEntry.symlink t) → ∃ msg, runSteps fs S = .error msg := by
  induction S with
  | nil => intro fs name e h _ _; exact absurd h (by simp [linkedIn])
  | cons s ss ih =>
    intro fs name e hlk hfs he
    cases s with
    | fail msg =>
      exact ⟨msg, by rw [runSteps_cons, runStep_fail]⟩
    | link m t =>
      by_cases hm : m = name
      · refine ⟨fileExistsMsg, ?_⟩
        rw [runSteps_cons, runStep_link, hm,
          linkTrack_error_nonlink fs name t e hfs he]
      · cases hr : linkTrack fs m t with
        | error e₂ =>
          exact ⟨e₂, by rw [runSteps_cons, runStep_link, hr]⟩
        | ok g =>
          have hlk2 : linkedIn ss name = true := by
            unfold linkedIn at hlk
            rw [List.any_cons, Bool.or_eq_true] at hlk
            rcases hlk with hh | hh
            · exact absurd (of_decide_eq_true hh) hm
            · exact hh
          have hfs2 : lookupFs g name = some e := by
            rw [linkTrack_ok_lookup fs m t g hr name,
              if_neg (fun hh => hm hh.symm), hfs]
          obtain ⟨msg, hmsg⟩ := ih g name e hlk2 hfs2 he
          exact ⟨msg, by rw [runSteps_cons, runStep_link, hr]; exact hmsg⟩

/-! ## Lemmas: the writer is its text plus its effect sequence -/

theorem writeTracks_cons (root self k : String) (m : AttrMap) (ts : List (String × AttrMap))
    (depth : Nat) (fs : Fs) :
    writeTracks root self ((k, m) :: ts) depth fs =
      if k = self then writeTracks root self ts depth fs
      else
        match runStep fs (trackStep root k m) with
        | .error e => .error e
        | .ok fs₁ =>
          match writeTracks root self ts depth fs₁ with
          | .error e => .error e
          | .ok r => .ok (attrLines m (depth * 5) true ++ "\n" ++ r.1, r.2) := rfl

theorem textTracks_cons (root self k : String) (m : AttrMap) (ts : List (String × AttrMap))
    (depth : Nat) :
    textTracks root self ((k, m) :: ts) depth =
      if k = self then textTracks root self ts depth
      else attrLines m (depth * 5) true ++ "\n" ++ textTracks root self ts depth := rfl

theorem writeTracks_eq (root self : String) (depth : Nat) :
    ∀ (entries : List (String × AttrMap)) (fs : Fs),
    writeTracks root self entries depth fs =
      match runSteps fs (stepsTracks root self entries) with
      | .error e => .error e
      | .ok fs' => .ok (textTracks root self entries depth, fs') := by
  intro entries
  induction entries with
  | nil => intro fs; rfl
  | cons p ts ih =>
    intro fs
    obtain ⟨k, m⟩ := p
    rw [writeTracks_cons, textTracks_cons]
    by_cases hk : k = self
    · rw [if_pos hk, if_pos hk, ih fs]
      have hsteps : stepsTracks root self ((k, m) :: ts) = stepsTracks root self ts := by
        unfold stepsTracks
        rw [List.filterMap_cons]
        dsimp only []
        rw [if_pos hk]
      rw [hsteps]
    · rw [if_neg hk, if_neg hk]
      have hsteps : stepsTracks root self ((k, m) :: ts) =
          trackStep root k m :: stepsTracks root self ts := by
        unfold stepsTracks
        rw [List.filterMap_cons]
        dsimp only []
        rw [if_neg hk]
      rw [hsteps, runSteps_cons]
      cases hr : runStep fs (trackStep root k m) with
      | error e => rfl
      | ok fs₁ =>
        dsimp only []
        rw [ih fs₁]
        cases hs : runSteps fs₁ (stepsTracks root self ts) with
        | error e => rfl
        | ok fs₂ => rfl

mutual
theorem writeOne_eq (root : String) (cn : HubNode) : ∀ (depth : Nat) (fs : Fs),
    writeOne root cn depth fs =
      match runSteps fs (stepsNode root cn depth) with
      | .error e => .error e
      | .ok fs' => .ok (textNode root cn depth, fs') :=
  match cn with
  | .mk name children tracks => by
    intro depth fs
    unfold writeOne stepsNode textNode
    dsimp only []
    by_cases hd : 0 < depth
    · rw [if_pos hd, if_pos hd, if_pos hd]
      cases hlk : ConfigMap.lookupCfg tracks name with
      | none =>
        simp only [hlk]
        have hfail : runSteps fs [WStep.fail selfKeyErrorMsg] = .error selfKeyErrorMsg := rfl
        rw [runSteps_append, runSteps_append, hfail]
      | some m =>
        simp only [hlk, List.nil_append]
        rw [runSteps_append]
        rw [writeChildren_eq root children (depth + 1) fs]
        cases hc : runSteps fs (stepsList root children (depth + 1)) with
        | error e => rfl
        | ok fs₁ =>
          dsimp only []
          rw [writeTracks_eq root name depth tracks fs₁]
          cases ht : runSteps fs₁ (stepsTracks root name tracks) with
          | error e => rfl
          | ok fs₂ => rfl
    · rw [if_neg hd, if_neg hd, if_neg hd]
      dsimp only [List.nil_append]
      rw [runSteps_append]
      rw [writeChildren_eq root children (depth + 1) fs]
      cases hc : runSteps fs (stepsList root children (depth + 1)) with
      | error e => rfl
      | ok fs₁ =>
        dsimp only []
        rw [writeTracks_eq root name depth tracks fs₁]
        cases ht : runSteps fs₁ (stepsTracks root name tracks) with
        | error e => rfl
        | ok fs₂ => rfl

theorem writeChildren_eq (root : String) (cs : List HubNode) : ∀ (depth : Nat) (fs : Fs),
    writeChildren root cs depth fs =
      match runSteps fs (stepsList root cs depth) with
      | .error e => .error e
      | .ok fs' => .ok (textList root cs depth, fs') :=
  match cs with
  | [] => by intro depth fs; rfl
  | cn :: rest => by
    intro depth fs
    unfold writeChildren stepsList textList
    rw [runSteps_append]
    rw [writeOne_eq root cn depth fs]
    cases hc : runSteps fs (stepsNode root cn depth) with
    | error e => rfl
    | ok fs₁ =>
      dsimp only []
      rw [writeChildren_eq root rest depth fs₁]
      cases ht : runSteps fs₁ (stepsList root rest depth) with
      | error e => rfl
      | ok fs₂ => rfl
end

/-! ## Remaining helper corollaries -/

theorem write_hub_eq (root : String) (hub : HubNode) (fs : Fs) :
    write_hub root hub fs =
      match runSteps fs (stepsList root [hub] 0) with
      | .error e => .error e
      | .ok fs' => .ok (textList root [hub] 0, fs') :=
  writeChildren_eq root [hub] 0 fs

theorem genTypeOf_ne_none (n : String) (h : isContainerName n = true) :
    genTypeOf n ≠ Option.none := by
  intro hn
  unfold genTypeOf at hn
  unfold isContainerName at h
  by_cases h1 : isMultiwigName n = true
  · rw [if_pos h1] at hn; exact Option.noConfusion hn
  · rw [if_neg h1] at hn
    by_cases h2 : isCompositeName n = true
    · rw [if_pos h2] at hn; exact Option.noConfusion hn
    · rw [if_neg h2] at hn
      by_cases h3 : isSuperName n = true
      · rw [if_pos h3] at hn; exact Option.noConfusion hn
      · rw [eq_false_of_ne_true h1, eq_false_of_ne_true h2, eq_false_of_ne_true h3] at h
        exact Bool.noConfusion h

/-! ## The claims -/

/-- C1 (counterexample): the color table is **not** matched against the
filename first.  For `sample.H3K4me3.bw` inside `input.composite` the source
returns `input`'s color `150,150,150` — the `input` pattern fires on the
parent before the later `H3K4me3` pattern is ever tried against the
filename — while the claimed filename-first semantics
(`color_filename_first`) would return H3K4me3's `203,24,29`. -/
theorem C1_counterexample :
    get_bigwig_color "sample.H3K4me3.bw" "input.composite" "255,0,0" = "150,150,150" ∧
    color_filename_first "sample.H3K4me3.bw" "input.composite" "255,0,0" = "203,24,29" := by
  decide

/-- C1 (amended): color resolution scans the ordered color table once; a
pattern fires if it matches the **filename or the parent name**, and the
first firing pattern in declaration order wins; if no pattern fires on
either subject the given fallback is returned.  In particular the two
scenarios named by the spec still hold: `sample.H3K4me3.bw` inside `other`
gets H3K4me3's color, and `sample.bw` inside `WGBS.composite` gets WGBS's
color via the parent name. -/
theorem C1_color_first_match :
    (∀ f p d, (∀ pc ∈ bigwig_colors, Pat.search pc.1 f = false ∧ Pat.search pc.1 p = false) →
      get_bigwig_color f p d = d)
    ∧ (∀ f p d l₁ pat col l₂, bigwig_colors = l₁ ++ (pat, col) :: l₂ →
        (∀ pc ∈ l₁, Pat.search pc.1 f = false ∧ Pat.search pc.1 p = false) →
        (Pat.search pat f = true ∨ Pat.search pat p = true) →
        get_bigwig_color f p d = col)
    ∧ get_bigwig_color "sample.H3K4me3.bw" "other" "255,0,0" = "203,24,29"
    ∧ get_bigwig_color "sample.bw" "WGBS.composite" "255,0,0" = "0,102,255" := by
  refine ⟨?_, ?_, by decide, by decide⟩
  · intro f p d h
    unfold get_bigwig_color
    rw [List.find?_eq_none.2]
    intro pc hpc hdec
    obtain ⟨h1, h2⟩ := h pc hpc
    rw [h1, h2] at hdec
    exact Bool.noConfusion hdec
  · intro f p d l₁ pat col l₂ htab hnone hhit
    unfold get_bigwig_color
    rw [htab, List.find?_append, List.find?_eq_none.2, Option.none_or, List.find?_cons]
    · have hp : (Pat.search (pat, col).1 f || Pat.search (pat, col).1 p) = true := by
        rcases hhit with hh | hh
        · rw [hh]; rfl
        · rw [hh, Bool.or_true]
      rw [hp]
    · intro pc hpc hdec
      obtain ⟨h1, h2⟩ := hnone pc hpc
      rw [h1, h2] at hdec
      exact Bool.noConfusion hdec

/-- C1 (witness): the amended theorem's fallback clause evaluated at a
concrete input matching no pattern. -/
theorem C1_witness : get_bigwig_color "a.bw" "b" "9,9,9" = "9,9,9" :=
  C1_color_first_match.1 "a.bw" "b" "9,9,9" (by decide)

/-- C2 (counterexample): a Composite container directly holding a Multiwig
sub-container is **not** rejected: depth-3 nesting
`root/A.composite/B.multiwig/t.bw` builds successfully, with no fatal
configuration error. -/
theorem C2_counterexample :
    (buildNode [] (Dir.mk "root" [Dir.mk "A.composite"
        [Dir.mk "B.multiwig" [] ["t.bw"]] []] [])
      (fun _ => Option.none) 1).isOk = true := by decide

/-- C2 (amended): the builder performs no nesting-depth check at all.  A
directory carrying any recognized container suffix is never rejected with
the structural error, whatever its depth; in particular the depth-3 chain
`r/C.super/D.composite/E.multiwig/t.bw` — a Composite directly inside a
Super and a Multiwig directly inside a Composite — builds successfully.
The structural fatal error is reserved for directories below the root
whose name carries none of the three suffixes. -/
theorem C2_no_nesting_check :
    (∀ parents files ov c, isContainerName (parents.getLastD "") = true →
      get_container_config parents files ov c ≠ .error structuralMsg)
    ∧ (buildNode [] (Dir.mk "r" [Dir.mk "C.super" [Dir.mk "D.composite"
        [Dir.mk "E.multiwig" [] ["t.bw"]] []] []] [])
      (fun _ => Option.none) 1).isOk = true := by
  refine ⟨?_, by decide⟩
  intro parents files ov c hcont heq
  simp only [get_container_config] at heq
  rw [if_neg (fun hand => genTypeOf_ne_none _ hcont hand.1)] at heq
  by_cases hcm : genTypeOf (parents.getLastD "") = some "composite" ∨
      genTypeOf (parents.getLastD "") = some "multiwig"
  · rw [if_pos hcm] at heq
    by_cases hl2 : 1 < (distinctVals
        ((get_tracks_config files (genTypeOf (parents.getLastD "")) parents c).1.filterMap
          (fun t => AttrMap.getKey t.2 "type"))).length
    · rw [if_pos hl2] at heq
      injection heq with hmsg
      exact (by decide : onlyOneTypeMsg ≠ structuralMsg) hmsg
    · rw [if_neg hl2] at heq
      by_cases hmw : genTypeOf (parents.getLastD "") = some "multiwig" ∧
          (distinctVals
            ((get_tracks_config files (genTypeOf (parents.getLastD "")) parents c).1.filterMap
              (fun t => AttrMap.getKey t.2 "type"))).headD (Val.str "bigWig") ≠
            Val.str "bigWig"
      · rw [if_pos hmw] at heq
        injection heq with hmsg
        exact (by decide : onlyBigwigMsg ≠ structuralMsg) hmsg
      · rw [if_neg hmw] at heq
        exact Except.noConfusion heq
  · rw [if_neg hcm] at heq
    exact Except.noConfusion heq

/-- C2 (witness): the amended theorem's first clause at a concrete suffixed
directory below the root. -/
theorem C2_witness :
    get_container_config ["r", "x.composite"] [] Option.none 2 ≠ .error structuralMsg :=
  C2_no_nesting_check.1 ["r", "x.composite"] [] Option.none 2 (by decide)

/-- C3: the type-consistency pass of composite and multiwig containers.
With `tys` the distinct `type` values of the contained tracks
(`trackTypesOf`): more than one distinct value is a fatal error; a multiwig
whose single resolved type is not `bigWig` is a fatal error (in particular
`x.multiwig` containing `a.bb`); otherwise the build succeeds and the
container's own `type` attribute is the resolved value (here stated for a
directory without an override document, whose merge runs after this pass;
the directory's file listing has distinct names). -/
theorem C3_type_consistency :
    (∀ parents files ov c,
      (genTypeOf (parents.getLastD "") = some "composite" ∨
       genTypeOf (parents.getLastD "") = some "multiwig") →
      1 < (trackTypesOf files (genTypeOf (parents.getLastD "")) parents c).length →
      get_container_config parents files ov c = .error onlyOneTypeMsg)
    ∧ (∀ parents files ov c,
      genTypeOf (parents.getLastD "") = some "multiwig" →
      (trackTypesOf files (genTypeOf (parents.getLastD "")) parents c).length ≤ 1 →
      (trackTypesOf files (genTypeOf (parents.getLastD "")) parents c).headD
        (Val.str "bigWig") ≠ Val.str "bigWig" →
      get_container_config parents files ov c = .error onlyBigwigMsg)
    ∧ (∀ parents files c,
      (genTypeOf (parents.getLastD "") = some "composite" ∨
       genTypeOf (parents.getLastD "") = some "multiwig") →
      files.Nodup →
      (trackTypesOf files (genTypeOf (parents.getLastD "")) parents c).length ≤ 1 →
      (genTypeOf (parents.getLastD "") = some "multiwig" →
        (trackTypesOf files (genTypeOf (parents.getLastD "")) parents c).headD
          (Val.str "bigWig") = Val.str "bigWig") →
      ∃ cfg, get_container_config parents files Option.none c =
        .ok (cfg, (get_tracks_config files (genTypeOf (parents.getLastD "")) parents c).2) ∧
        AttrMap.getKey ((ConfigMap.lookupCfg cfg (parents.getLastD "")).getD []) "type" =
          some ((trackTypesOf files (genTypeOf (parents.getLastD "")) parents c).headD
            (Val.str "bigWig")))
    ∧ get_container_config ["root", "x.multiwig"] ["a.bb"] Option.none 1 =
        .error onlyBigwigMsg := by
  refine ⟨?_, ?_, ?_, by decide⟩
  · intro parents files ov c hcm hlen
    unfold trackTypesOf at hlen
    have hneg : ¬(genTypeOf (parents.getLastD "") = Option.none ∧ 1 < parents.length) := by
      intro hand
      rcases hcm with h | h
      · rw [h] at hand; exact Option.noConfusion hand.1
      · rw [h] at hand; exact Option.noConfusion hand.1
    simp only [get_container_config]
    rw [if_neg hneg, if_pos hcm, if_pos hlen]
  · intro parents files ov c hmw hlen hne
    unfold trackTypesOf at hlen hne
    have hneg : ¬(genTypeOf (parents.getLastD "") = Option.none ∧ 1 < parents.length) := by
      intro hand
      rw [hmw] at hand
      exact Option.noConfusion hand.1
    simp only [get_container_config]
    rw [if_neg hneg, if_pos (Or.inr hmw), if_neg (Nat.not_lt.2 hlen), if_pos ⟨hmw, hne⟩]
  · intro parents files c hcm hnd hlen hmwty
    have hcont : isContainerName (parents.getLastD "") = true := by
      rcases hcm with h | h
      · exact genTypeOf_some_container _ _ h
      · exact genTypeOf_some_container _ _ h
    have hnc : classifiedFile (parents.getLastD "") = false :=
      container_not_classified _ hcont
    cases hok : get_container_config parents files Option.none c with
    | error e =>
      exfalso
      unfold trackTypesOf at hlen hmwty
      have hneg : ¬(genTypeOf (parents.getLastD "") = Option.none ∧ 1 < parents.length) := by
        intro hand
        rcases hcm with h | h
        · rw [h] at hand; exact Option.noConfusion hand.1
        · rw [h] at hand; exact Option.noConfusion hand.1
      simp only [get_container_config] at hok
      rw [if_neg hneg, if_pos hcm, if_neg (Nat.not_lt.2 hlen)] at hok
      rw [if_neg (fun hand => hand.2 (hmwty hand.1))] at hok
      exact Except.noConfusion hok
    | ok p =>
      obtain ⟨cfg, c₁⟩ := p
      obtain ⟨hc1, CC, hcfg, hty⟩ :=
        container_ok_shape parents files c cfg c₁ hnc hnd hok
      refine ⟨cfg, by rw [← hc1], ?_⟩
      rw [hcfg, lookupCfg_cons_eq _ _ _ rfl]
      unfold trackTypesOf
      exact hty hcm

/-- C3 (witness): a composite holding a `.bw` and a `.bb` file fails with
the mixed-type message. -/
theorem C3_witness :
    get_container_config ["r", "c.composite"] ["a.bw", "b.bb"] Option.none 1 =
      .error onlyOneTypeMsg :=
  C3_type_consistency.1 ["r", "c.composite"] ["a.bw", "b.bb"] Option.none 1
    (by decide) (by decide)

theorem getKey_bigbed_track_config_other (f : String) (ps : List String) (c : Nat)
    (k : String) (h1 : k ≠ "parent") (h2 : k ≠ "track") (h3 : k ≠ "bigDataUrl")
    (h4 : k ≠ "shortLabel") (h5 : k ≠ "longLabel") (h6 : k ≠ "color") :
    AttrMap.getKey (bigbed_track_config f ps c) k = AttrMap.getKey bigbed_default k := by
  unfold bigbed_track_config
  rw [getKey_setEntry, if_neg h6, getKey_setEntry, if_neg h5, getKey_setEntry, if_neg h4,
    getKey_setEntry, if_neg h3, getKey_setEntry, if_neg h2]
  by_cases hp : 2 ≤ ps.length
  · rw [if_pos hp, getKey_setEntry, if_neg h1]
  · rw [if_neg hp, getKey_pop_ne _ _ _ h1]

theorem track_attrs_claimed_bigwig (f : String) (ty : Option String) (parents : List String)
    (c : Nat) (h : isBigwigFile f = true) :
    track_attrs_claimed f ty parents c = bigwig_track_config f ty parents c := by
  unfold track_attrs_claimed bigwig_track_config
  rw [if_pos h, if_pos h]

/-- C4 (counterexample): a BigBed file outside a Multiwig container does
**not** get the combined-view defaults or the display-tuning override.  For
`H3K9me3.bb` in a composite, the source's track config has no `viewLimits`
at all, while the claimed layering (`track_attrs_claimed`, following the
spec's words for every classified file) yields the `H3K9me3` tuning value
`0:8`. -/
theorem C4_counterexample :
    (get_tracks_config ["H3K9me3.bb"] (some "composite") ["root", "x.composite"] 5).1.map
      (fun t => AttrMap.getKey t.2 "viewLimits") = [Option.none] ∧
    AttrMap.getKey (track_attrs_claimed "H3K9me3.bb" (some "composite")
      ["root", "x.composite"] 5) "viewLimits" = some (.str "0:8") := by decide

/-- C4 (amended): the claimed layering is correct for **BigWig** files only:
on file lists without BigBed files the per-track pass coincides with the
spec-worded pass `tracks_claimed` (combined-view defaults and first-matching
display tuning, both suppressed inside Multiwig).  A BigBed file receives
neither layer in any context: its built config carries no `viewLimits`, no
`windowingFunction` and no `transformFunc`, and keeps `bigbed_default`'s
`squish` visibility. -/
theorem C4_layering :
    (∀ files ty parents c f m,
      (f, m) ∈ (get_tracks_config files ty parents c).1 → isBigbedFile f = true →
      AttrMap.getKey m "viewLimits" = Option.none ∧
      AttrMap.getKey m "visibility" = some (.str "squish") ∧
      AttrMap.getKey m "windowingFunction" = Option.none ∧
      AttrMap.getKey m "transformFunc" = Option.none)
    ∧ (∀ files ty parents c, (∀ f ∈ files, isBigbedFile f = false) →
      get_tracks_config files ty parents c = tracks_claimed files ty parents c) := by
  constructor
  · intro files ty parents c f m hmem hbb
    induction files generalizing c with
    | nil => exact absurd hmem (List.not_mem_nil _)
    | cons g fs ih =>
      by_cases hbw : isBigwigFile g = true
      · simp only [get_tracks_config, hbw, if_true] at hmem
        rcases List.mem_cons.1 hmem with heq | hmem'
        · have hf : f = g := congrArg Prod.fst heq
          rw [hf] at hbb
          rw [bigbed_not_bigwig g hbb] at hbw
          exact Bool.noConfusion hbw
        · exact ih (c + 1) hmem'
      · have hbwf : isBigwigFile g = false := eq_false_of_ne_true hbw
        by_cases hgb : isBigbedFile g = true
        · simp only [get_tracks_config, hbwf, Bool.false_eq_true, if_false, hgb,
            if_true] at hmem
          rcases List.mem_cons.1 hmem with heq | hmem'
          · have hm : m = bigbed_track_config g parents c := congrArg Prod.snd heq
            rw [hm]
            refine ⟨?_, ?_, ?_, ?_⟩
            · rw [getKey_bigbed_track_config_other g parents c "viewLimits"
                (by decide) (by decide) (by decide) (by decide) (by decide) (by decide)]
              decide
            · rw [getKey_bigbed_track_config_other g parents c "visibility"
                (by decide) (by decide) (by decide) (by decide) (by decide) (by decide)]
              decide
            · rw [getKey_bigbed_track_config_other g parents c "windowingFunction"
                (by decide) (by decide) (by decide) (by decide) (by decide) (by decide)]
              decide
            · rw [getKey_bigbed_track_config_other g parents c "transformFunc"
                (by decide) (by decide) (by decide) (by decide) (by decide) (by decide)]
              decide
          · exact ih (c + 1) hmem'
        · have hgbf : isBigbedFile g = false := eq_false_of_ne_true hgb
          simp only [get_tracks_config, hbwf, Bool.false_eq_true, if_false, hgbf] at hmem
          exact ih c hmem
  · intro files ty parents c hnb
    induction files generalizing c with
    | nil => rfl
    | cons f fs ih =>
      have hbb : isBigbedFile f = false := hnb f (List.mem_cons_self f fs)
      have hnb' : ∀ g ∈ fs, isBigbedFile g = false :=
        fun g hg => hnb g (List.mem_cons_of_mem _ hg)
      by_cases hbw : isBigwigFile f = true
      · have hcl : classifiedFile f = true := by simp [classifiedFile, hbw]
        simp only [get_tracks_config, hbw, if_true, tracks_claimed, hcl,
          track_attrs_claimed_bigwig f ty parents c hbw, ih (c + 1) hnb']
      · have hbwf : isBigwigFile f = false := eq_false_of_ne_true hbw
        have hcl : classifiedFile f = false := by simp [classifiedFile, hbwf, hbb]
        simp only [get_tracks_config, hbwf, Bool.false_eq_true, if_false, hbb,
          tracks_claimed, hcl, ih c hnb']

/-- C4 (witness): the amended theorem at concrete inputs — a BigBed entry in
a composite keeps `squish` and gets no tuning, and a BigWig-only listing
matches the spec-worded pass. -/
theorem C4_witness :
    (AttrMap.getKey (bigbed_track_config "H3K9me3.bb" ["root", "x.composite"] 5)
        "viewLimits" = Option.none ∧
      AttrMap.getKey (bigbed_track_config "H3K9me3.bb" ["root", "x.composite"] 5)
        "visibility" = some (.str "squish") ∧
      AttrMap.getKey (bigbed_track_config "H3K9me3.bb" ["root", "x.composite"] 5)
        "windowingFunction" = Option.none ∧
      AttrMap.getKey (bigbed_track_config "H3K9me3.bb" ["root", "x.composite"] 5)
        "transformFunc" = Option.none) ∧
    get_tracks_config ["a.bw"] Option.none ["r"] 1 =
      tracks_claimed ["a.bw"] Option.none ["r"] 1 :=
  ⟨C4_layering.1 ["H3K9me3.bb"] (some "composite") ["root", "x.composite"] 5
      "H3K9me3.bb" (bigbed_track_config "H3K9me3.bb" ["root", "x.composite"] 5)
      (by decide) (by decide),
   C4_layering.2 ["a.bw"] Option.none ["r"] 1 (by decide)⟩

/-- C5: identifiers are assigned in discovery order, strictly increasing by
one from the configured start index, independent of tree shape: for any
build that succeeds from start index `s` (with no override documents, so
that the stored `track` attributes are the assigned ones; the root's name is
not itself a classified track name, and directory listings hold distinct
names, as on a real filesystem), the `track` attributes collected across the
hub in discovery order are exactly `track_s, track_(s+1), ...`. -/
theorem C5_track_identifiers (d : Dir) (s : Nat) (hub : HubNode) (c' : Nat)
    (hroot : classifiedFile (Dir.dirName d) = false)
    (hnd : filesNodupDeep d = true)
    (hb : buildNode [] d (fun _ => Option.none) s = .ok (hub, c')) :
    s ≤ c' ∧ idsOfHub hub =
      (List.range (c' - s)).map (fun i => Val.str ("track_" ++ toString (s + i))) :=
  buildIds d [] s hub c' hb hnd hroot

/-- C5 (witness): the theorem at a concrete two-track tree (one toplevel
file, one file in a composite) with start index 5: the assigned identifiers
are `track_5, track_6`. -/
theorem C5_witness :
    5 ≤ 7 ∧ idsOfHub (HubNode.mk "root"
      [HubNode.mk "A.composite" []
        [("A.composite",
          [("track", Val.str "A.composite"), ("type", Val.str "bigWig"),
           ("compositeTrack", Val.str "on"), ("shortLabel", Val.str "A.composite"),
           ("longLabel", Val.str "A.composite"), ("visibility", Val.str "hide"),
           ("priority", Val.int 1), ("centerLabelsDense", Val.str "on"),
           ("html", Val.str "examplePage")]),
         ("x.bw",
          [("track", Val.str "track_6"), ("type", Val.str "bigWig"),
           ("parent", Val.str "A.composite"), ("bigDataUrl", Val.str "A.composite/x.bw"),
           ("shortLabel", Val.str "x.bw"), ("longLabel", Val.str "x.bw"),
           ("color", Val.str "255,0,0"), ("visibility", Val.str "hide"),
           ("maxHeightPixels", Val.str "500:20:8"), ("viewLimits", Val.str "0:20"),
           ("alwaysZero", Val.str "on"), ("autoScale", Val.str "off"),
           ("windowingFunction", Val.str "mean+whiskers"), ("priority", Val.int 1)])]]
      [("root",
        [("track", Val.str "root"), ("shortLabel", Val.str "root"),
         ("longLabel", Val.str "root")]),
       ("y.bw",
        [("track", Val.str "track_5"), ("type", Val.str "bigWig"),
         ("bigDataUrl", Val.str "y.bw"), ("shortLabel", Val.str "y.bw"),
         ("longLabel", Val.str "y.bw"), ("color", Val.str "255,0,0"),
         ("visibility", Val.str "hide"), ("maxHeightPixels", Val.str "500:20:8"),
         ("viewLimits", Val.str "0:20"), ("alwaysZero", Val.str "on"),
         ("autoScale", Val.str "off"), ("windowingFunction", Val.str "mean+whiskers"),
         ("priority", Val.int 1)])]) =
      (List.range (7 - 5)).map (fun i => Val.str ("track_" ++ toString (5 + i))) :=
  C5_track_identifiers
    (Dir.mk "root" [Dir.mk "A.composite" [] ["x.bw"]] ["y.bw"]) 5 _ 7
    (by decide) (by decide) rfl

/-- C6: per-directory override precedence.  For every entity present in the
built config, after the override merge its attribute dict `m'` satisfies:
if the entity is not named in the override document it is unchanged, and if
it is named (with the well-formed, duplicate-free keys of a yaml mapping)
then every top-level key of the override wins while keys absent from the
override keep their built values. -/
theorem C6_override_merge (config doc : ConfigMap) (name : String) (m : AttrMap)
    (h : ConfigMap.lookupCfg config name = some m) :
    ∃ m', ConfigMap.lookupCfg (update_config_from_file config (some doc)) name = some m' ∧
      (ConfigMap.lookupCfg doc name = Option.none → m' = m) ∧
      (∀ ov, ConfigMap.lookupCfg doc name = some ov → (ov.map Prod.fst).Nodup →
        ∀ k, AttrMap.getKey m' k =
          match AttrMap.getKey ov k with
          | some v => some v
          | Option.none => AttrMap.getKey m k) := by
  refine ⟨_, lookupCfg_update_config config doc name m h, ?_, ?_⟩
  · intro hd
    rw [hd]
  · intro ov hd hnd k
    rw [hd]
    exact getKey_update_nodup m ov k hnd

/-- C6 (witness): the theorem at a concrete config and override document:
the overridden `color` wins, the untouched `visibility` keeps its built
value, and the entity absent from the document is unchanged. -/
theorem C6_witness :
    ∃ m', ConfigMap.lookupCfg (update_config_from_file
        [("t.bw", [("color", Val.str "255,0,0"), ("visibility", Val.str "hide")]),
         ("u.bw", [("color", Val.str "255,0,0")])]
        (some [("t.bw", [("color", Val.str "0,0,255")])])) "t.bw" = some m' ∧
      (ConfigMap.lookupCfg [("t.bw", [("color", Val.str "0,0,255")])] "t.bw" =
        Option.none → m' = [("color", Val.str "255,0,0"), ("visibility", Val.str "hide")]) ∧
      (∀ ov, ConfigMap.lookupCfg [("t.bw", [("color", Val.str "0,0,255")])] "t.bw" =
          some ov → (ov.map Prod.fst).Nodup →
        ∀ k, AttrMap.getKey m' k =
          match AttrMap.getKey ov k with
          | some v => some v
          | Option.none =>
            AttrMap.getKey [("color", Val.str "255,0,0"),
              ("visibility", Val.str "hide")] k) :=
  C6_override_merge
    [("t.bw", [("color", Val.str "255,0,0"), ("visibility", Val.str "hide")]),
     ("u.bw", [("color", Val.str "255,0,0")])]
    [("t.bw", [("color", Val.str "0,0,255")])]
    "t.bw" [("color", Val.str "255,0,0"), ("visibility", Val.str "hide")] (by decide)

/-- C7 (counterexample): symlinks are keyed by the track's **file name**
(the key of the tracks dict), not by its assigned identifier.  With a track
`s.bw` whose identifier is `track_1`, a pre-existing symlink named
`track_1` in the output directory is left untouched, and the new symlink is
created under the name `s.bw`. -/
theorem C7_counterexample :
    (write_hub "r" (HubNode.mk "root" []
        [("s.bw", [("track", Val.str "track_1"), ("bigDataUrl", Val.str "s.bw")])])
      [("track_1", FsEntry.symlink "stale")]).map
      (fun r => (lookupFs r.2 "track_1", lookupFs r.2 "s.bw")) =
    .ok (some (FsEntry.symlink "stale"), some (FsEntry.symlink "r/s.bw")) := by decide

/-- C7 (amended): the writer is idempotent with symlinks keyed by the
track's **file name**: whenever a run succeeds, re-running it on the
resulting output directory succeeds, writes byte-identical text, and leaves
every entry of the output directory (in particular every symlink target)
unchanged — each pre-existing symlink under a written name is removed and
recreated with the same target. -/
theorem C7_idempotent (root : String) (hub : HubNode) (fs : Fs) (t : String) (fs₁ : Fs)
    (h : write_hub root hub fs = .ok (t, fs₁)) :
    ∃ fs₂, write_hub root hub fs₁ = .ok (t, fs₂) ∧
      ∀ n, lookupFs fs₂ n = lookupFs fs₁ n := by
  rw [write_hub_eq] at h
  cases hr : runSteps fs (stepsList root [hub] 0) with
  | error e => rw [hr] at h; exact Except.noConfusion h
  | ok fs₁' =>
    rw [hr] at h
    dsimp only [] at h
    injection h with hpair
    injection hpair with ht hfs
    subst hfs
    obtain ⟨fs₂, h2, hlook⟩ := runSteps_idempotent _ fs fs₁' hr
    refine ⟨fs₂, ?_, hlook⟩
    rw [write_hub_eq, h2]
    dsimp only []
    rw [ht]

/-- C7 (witness): the idempotence theorem applied to a one-track hub after
its own first run. -/
theorem C7_witness :
    ∃ fs₂, write_hub "r" (HubNode.mk "root" [] [("s.bw", [("bigDataUrl", Val.str "s.bw")])])
        [("s.bw", FsEntry.symlink "r/s.bw")] = .ok ("bigDataUrl s.bw\n\n", fs₂) ∧
      ∀ n, lookupFs fs₂ n = lookupFs [("s.bw", FsEntry.symlink "r/s.bw")] n :=
  C7_idempotent "r" (HubNode.mk "root" [] [("s.bw", [("bigDataUrl", Val.str "s.bw")])])
    [] "bigDataUrl s.bw\n\n" [("s.bw", FsEntry.symlink "r/s.bw")] (by decide)

/-- C8: every directory below the root without a recognized container suffix
is fatal with the structural message; any tree containing such a directory
makes the whole run fail before the hub text or any symlink is produced
(the run's result is an error, with no output); in particular
`root/A/B/file.bw` with unsuffixed `A` and `B` fails with exactly the
structural message. -/
theorem C8_structural_error :
    (∀ parents files ov c, 1 < parents.length →
      isContainerName (parents.getLastD "") = false →
      get_container_config parents files ov c = .error structuralMsg)
    ∧ (∀ d ov s fs post, descendantsOk d = false →
      ∃ msg, mainRun d ov s fs post = .error msg)
    ∧ mainRun (Dir.mk "root" [Dir.mk "A" [Dir.mk "B" [] ["file.bw"]] []] [])
        (fun _ => Option.none) 1 [] "" = .error structuralMsg := by
  refine ⟨container_error_unsuffixed, ?_, by decide⟩
  intro d ov s fs post hbad
  cases hb : buildNode [] d ov s with
  | error e => exact ⟨e, by unfold mainRun; rw [hb]⟩
  | ok p =>
    rw [buildOk_descOk d [] ov s p hb] at hbad
    exact Bool.noConfusion hbad

/-- C8 (witness): the theorem's clauses at concrete inputs — an unsuffixed
directory below the root, and a tree containing one. -/
theorem C8_witness :
    get_container_config ["r", "Bad"] [] Option.none 3 = .error structuralMsg ∧
    ∃ msg, mainRun (Dir.mk "r" [Dir.mk "x" [] []] []) (fun _ => Option.none) 1 [] "" =
      .error msg :=
  ⟨C8_structural_error.1 ["r", "Bad"] [] Option.none 3 (by decide) (by decide),
   C8_structural_error.2.1 (Dir.mk "r" [Dir.mk "x" [] []] []) (fun _ => Option.none)
     1 [] "" (by decide)⟩

theorem tracks_empty_of_unclassified (files : List String) (ty : Option String)
    (parents : List String) (c : Nat)
    (h : ∀ f ∈ files, classifiedFile f = false) :
    get_tracks_config files ty parents c = ([], c) := by
  induction files with
  | nil => rfl
  | cons f fs ih =>
    have hf : classifiedFile f = false := h f (List.mem_cons_self f fs)
    unfold classifiedFile at hf
    simp only [Bool.or_eq_false_iff] at hf
    simp only [get_tracks_config, hf.1, Bool.false_eq_true, if_false, hf.2]
    exact ih (fun g hg => h g (List.mem_cons_of_mem _ hg))

/-- C9: a Composite or Multiwig directory with no classified track files
(distinct listing names, no override document) builds without error: the
type pass sees no types, leaves the counter unchanged, and sets the
container's own `type` attribute to the default `bigWig`. -/
theorem C9_empty_container (parents files : List String) (c : Nat)
    (hcm : genTypeOf (parents.getLastD "") = some "composite" ∨
      genTypeOf (parents.getLastD "") = some "multiwig")
    (hnd : files.Nodup)
    (hunc : ∀ f ∈ files, classifiedFile f = false) :
    ∃ cfg, get_container_config parents files Option.none c = .ok (cfg, c) ∧
      AttrMap.getKey ((ConfigMap.lookupCfg cfg (parents.getLastD "")).getD []) "type" =
        some (Val.str "bigWig") := by
  have htr : get_tracks_config files (genTypeOf (parents.getLastD "")) parents c =
      ([], c) := tracks_empty_of_unclassified files _ parents c hunc
  have hcont : isContainerName (parents.getLastD "") = true := by
    rcases hcm with h | h
    · exact genTypeOf_some_container _ _ h
    · exact genTypeOf_some_container _ _ h
  have hnc : classifiedFile (parents.getLastD "") = false :=
    container_not_classified _ hcont
  have hneg : ¬(genTypeOf (parents.getLastD "") = Option.none ∧ 1 < parents.length) := by
    intro hand
    rcases hcm with h | h
    · rw [h] at hand; exact Option.noConfusion hand.1
    · rw [h] at hand; exact Option.noConfusion hand.1
  cases hok : get_container_config parents files Option.none c with
  | error e =>
    exfalso
    simp only [get_container_config] at hok
    rw [if_neg hneg, if_pos hcm, htr] at hok
    dsimp only [] at hok
    rw [if_neg (by simp [distinctVals])] at hok
    rw [if_neg (fun hand => hand.2 (by simp [distinctVals]))] at hok
    exact Except.noConfusion hok
  | ok p =>
    obtain ⟨cfg, c₁⟩ := p
    obtain ⟨hc1, CC, hcfg, hty⟩ := container_ok_shape parents files c cfg c₁ hnc hnd hok
    rw [htr] at hc1
    dsimp only [] at hc1
    rw [htr] at hcfg
    dsimp only [] at hcfg
    have hty2 := hty hcm
    rw [htr] at hty2
    dsimp only [] at hty2
    simp only [List.filterMap_nil] at hty2
    refine ⟨cfg, by rw [hc1], ?_⟩
    rw [hcfg, lookupCfg_cons_eq _ _ _ rfl]
    exact hty2

/-- C9 (witness): the theorem at a concrete empty composite (one
unclassified file). -/
theorem C9_witness :
    ∃ cfg, get_container_config ["r", "e.composite"] ["readme.txt"] Option.none 4 =
        .ok (cfg, 4) ∧
      AttrMap.getKey ((ConfigMap.lookupCfg cfg "e.composite").getD []) "type" =
        some (Val.str "bigWig") := by
  have h := C9_empty_container ["r", "e.composite"] ["readme.txt"] 4
    (by decide) (by decide) (by decide)
  exact h

/-- C10 (counterexample): a pre-existing **non-symlink** entry named by the
track's assigned identifier does not make the writer fail: the symlink is
keyed by the file name, so with track `s.bw` (identifier `track_1`) and a
regular file `track_1` in the output directory the run succeeds and leaves
the `track_1` entry untouched — no error is raised, contradicting the
claim. -/
theorem C10_counterexample :
    (write_hub "r" (HubNode.mk "root" []
        [("s.bw", [("track", Val.str "track_1"), ("bigDataUrl", Val.str "s.bw")])])
      [("track_1", FsEntry.file)]).map (fun r => lookupFs r.2 "track_1") =
    .ok (some FsEntry.file) := by decide

/-- C10 (amended): with the symlink keyed by the track's **file name**: the
removal step only ever removes symlinks — a non-symlink entry under the
link's name makes `os.symlink` raise `FileExistsError` without the entry
being removed — and a hub whose effect sequence links such a name makes the
whole writer run fail. -/
theorem C10_nonlink_entry :
    (∀ fs name target e, lookupFs fs name = some e →
      (∀ t, e ≠ FsEntry.symlink t) →
      linkTrack fs name target = .error fileExistsMsg)
    ∧ (∀ root hub fs name e,
      linkedIn (stepsList root [hub] 0) name = true →
      lookupFs fs name = some e → (∀ t, e ≠ FsEntry.symlink t) →
      ∃ msg, write_hub root hub fs = .error msg) := by
  refine ⟨linkTrack_error_nonlink, ?_⟩
  intro root hub fs name e hlk hfs he
  obtain ⟨msg, hmsg⟩ := runSteps_error_nonlink (stepsList root [hub] 0) fs name e hlk hfs he
  exact ⟨msg, by rw [write_hub_eq, hmsg]⟩

/-- C10 (witness): the theorem at a concrete hub and a regular file
occupying the track's file name. -/
theorem C10_witness :
    ∃ msg, write_hub "r" (HubNode.mk "root" []
        [("s.bw", [("bigDataUrl", Val.str "s.bw")])])
      [("s.bw", FsEntry.file)] = .error msg :=
  C10_nonlink_entry.2 "r"
    (HubNode.mk "root" [] [("s.bw", [("bigDataUrl", Val.str "s.bw")])])
    [("s.bw", FsEntry.file)] "s.bw" FsEntry.file (by decide) (by decide)
    (fun t h => FsEntry.noConfusion h)
